import Mathlib

/-!
# kiloa: agent rate sampling and dashboard fleet state

A shallow embedding of `agent/main.go` (`Collector.Collect`) and
`dashboard/main.go` (the `POST /api/report` and `GET /` handlers and
`formatBytes`).

Conventions of the embedding:

* `uint64` values are natural numbers, with `% 2 ^ 64` written wherever the
  Go operation can wrap; `int64` values are integers, wrapped by `wrapInt64`.
* `time.Time` instants and `time.Duration` values are integer nanosecond
  counts; the zero `time.Time` is the instant `0`.
* `float64` values are the type `F64` below: IEEE 754 binary64 with
  round-to-nearest, ties-to-even.
* The results of the gopsutil probes, the clock readings and the decoded
  request body are inputs of the functions that use them.
-/

namespace Kiloa

/-! ## float64 -/

/-- A `float64` value: a finite rational, an infinity, or NaN.  The sign of
zero is not tracked: Go's comparison operators do not distinguish `-0` from
`+0`, and every division in the embedded code has a divisor that is a non-zero
constant or is guarded by a `> 0` test. -/
inductive F64 where
  | fin (q : ℚ)
  | pinf
  | ninf
  | nan
deriving DecidableEq

namespace F64

/-- Nearest integer to `x`, ties going to the even neighbour. -/
def roundEven (x : ℚ) : ℤ :=
  if x - ⌊x⌋ < 1 / 2 then ⌊x⌋
  else if 1 / 2 < x - ⌊x⌋ then ⌊x⌋ + 1
  else if ⌊x⌋ % 2 = 0 then ⌊x⌋ else ⌊x⌋ + 1

/-- Spacing of the binary64 grid around `q`: 53 significant bits, with the
exponent clamped below at `-1022` (subnormal range). -/
def ulp (q : ℚ) : ℚ := (2 : ℚ) ^ (max (Int.log 2 |q|) (-1022) - 52)

/-- The overflow threshold `2 ^ 1024`: a rounded magnitude that reaches it
becomes an infinity. -/
def huge : ℚ := (2 : ℚ) ^ (1024 : ℕ)

/-- Rounding of an exact result to binary64: nearest grid point, ties to even,
overflowing to an infinity from `2 ^ 1024` on. -/
def round (q : ℚ) : F64 :=
  let r : ℚ := roundEven (q / ulp q) * ulp q
  if huge ≤ r then pinf
  else if r ≤ -huge then ninf
  else fin r

/-- The value `0`, the zero value of a Go `float64` variable. -/
def zero : F64 := fin 0

/-- Conversion `float64(n)` of an integer (also used for `uint64`). -/
def ofInt (n : ℤ) : F64 := round n

/-- A decimal constant or JSON number, correctly rounded. -/
def ofRat (q : ℚ) : F64 := round q

/-- Go `x + y`. -/
def add : F64 → F64 → F64
  | fin a, fin b => round (a + b)
  | nan, _ => nan
  | _, nan => nan
  | pinf, ninf => nan
  | ninf, pinf => nan
  | pinf, _ => pinf
  | _, pinf => pinf
  | ninf, _ => ninf
  | _, ninf => ninf

/-- Go `-x`. -/
def neg : F64 → F64
  | fin a => fin (-a)
  | pinf => ninf
  | ninf => pinf
  | nan => nan

/-- Go `x - y`. -/
def sub (x y : F64) : F64 := add x (neg y)

/-- Go `x * y`. -/
def mul : F64 → F64 → F64
  | fin a, fin b => round (a * b)
  | nan, _ => nan
  | _, nan => nan
  | pinf, fin b => if b = 0 then nan else if 0 < b then pinf else ninf
  | ninf, fin b => if b = 0 then nan else if 0 < b then ninf else pinf
  | fin a, pinf => if a = 0 then nan else if 0 < a then pinf else ninf
  | fin a, ninf => if a = 0 then nan else if 0 < a then ninf else pinf
  | pinf, pinf => pinf
  | ninf, ninf => pinf
  | pinf, ninf => ninf
  | ninf, pinf => ninf

/-- Go `x / y`.  A zero divisor is taken as `+0`; the embedded code never
divides by zero. -/
def div : F64 → F64 → F64
  | fin a, fin b =>
    if b = 0 then (if a = 0 then nan else if 0 < a then pinf else ninf)
    else round (a / b)
  | nan, _ => nan
  | _, nan => nan
  | fin _, pinf => fin 0
  | fin _, ninf => fin 0
  | pinf, fin b => if 0 ≤ b then pinf else ninf
  | ninf, fin b => if 0 ≤ b then ninf else pinf
  | pinf, pinf => nan
  | pinf, ninf => nan
  | ninf, pinf => nan
  | ninf, ninf => nan

/-- Go `x < y`: false whenever an operand is NaN. -/
def lt : F64 → F64 → Prop
  | fin a, fin b => a < b
  | fin _, pinf => True
  | ninf, fin _ => True
  | ninf, pinf => True
  | _, _ => False

/-- Go `x <= y`: false whenever an operand is NaN. -/
def le : F64 → F64 → Prop
  | fin a, fin b => a ≤ b
  | fin _, pinf => True
  | ninf, fin _ => True
  | ninf, pinf => True
  | pinf, pinf => True
  | ninf, ninf => True
  | _, _ => False

instance : LT F64 := ⟨lt⟩

instance : LE F64 := ⟨le⟩

instance decLt (x y : F64) : Decidable (x < y) := by
  show Decidable (lt x y)
  cases x <;> cases y <;> unfold lt <;> infer_instance

instance decLe (x y : F64) : Decidable (x ≤ y) := by
  show Decidable (le x y)
  cases x <;> cases y <;> unfold le <;> infer_instance

end F64

/-! ## Integer helpers -/

/-- Wrap-around of a mathematical integer into `int64`. -/
def wrapInt64 (x : ℤ) : ℤ := (x + 2 ^ 63) % 2 ^ 64 - 2 ^ 63

/-- Go `a + b` on `uint64`. -/
def addU64 (a b : ℕ) : ℕ := (a + b) % 2 ^ 64

/-- Go `a - b` on `uint64`: the difference modulo `2 ^ 64`. -/
def subU64 (a b : ℕ) : ℕ := (a + (2 ^ 64 - b % 2 ^ 64)) % 2 ^ 64

/-! ## Time -/

/-- Go `time.Second`, in nanoseconds. -/
def Second : ℤ := 1000000000

/-- Go `time.Minute`, in nanoseconds. -/
def Minute : ℤ := 60 * Second

/-- Smallest `time.Duration`. -/
def minDuration : ℤ := -(2 ^ 63)

/-- Largest `time.Duration`. -/
def maxDuration : ℤ := 2 ^ 63 - 1

/-- Go `t.Sub(u)`: the difference of two instants, saturating at the ends of
the `Duration` range. -/
def timeSub (t u : ℤ) : ℤ :=
  if t - u < minDuration then minDuration
  else if maxDuration < t - u then maxDuration
  else t - u

/-- Go `d.Seconds()`: `float64(d / Second) + float64(d % Second) / 1e9`, with
Go's truncating integer division. -/
def Seconds (d : ℤ) : F64 :=
  F64.add (F64.ofInt (Int.tdiv d Second))
    (F64.div (F64.ofInt (Int.tmod d Second)) (F64.fin 1000000000))

/-! ## Agent (`agent/main.go`) -/

/-- Command-line configuration of the agent. -/
structure Config where
  ServerURL : String
  Token : String
  NodeID : String
  Location : String
  ISP : String
  Interval : ℤ
deriving DecidableEq

/-- The JSON payload sent to the dashboard. -/
structure SystemStats where
  NodeID : String
  Location : String
  ISP : String
  Uptime : ℕ
  Cores : ℤ
  Load1 : F64
  Load5 : F64
  Load15 : F64
  MemUsed : ℕ
  MemTotal : ℕ
  DiskUsed : ℕ
  DiskTotal : ℕ
  CPUSteal : F64
  NetUp : F64
  NetDown : F64
deriving DecidableEq

/-- The fields of gopsutil's `cpu.TimesStat` that `Collect` reads: cumulative
CPU seconds per bucket. -/
structure TimesStat where
  User : F64
  System : F64
  Idle : F64
  Nice : F64
  Iowait : F64
  Irq : F64
  Softirq : F64
  Steal : F64
deriving DecidableEq

/-- The fields of gopsutil's `net.IOCountersStat` that `Collect` reads:
cumulative byte counters (`uint64`). -/
structure IOCountersStat where
  BytesSent : ℕ
  BytesRecv : ℕ
deriving DecidableEq

/-- The collector: the previous network and CPU samples and the time of the
previous call. -/
structure Collector where
  lastNet : List IOCountersStat
  lastCPU : List TimesStat
  lastTime : ℤ
deriving DecidableEq

/-- What one call of `Collect` reads from its environment: the clock and the
result (value or error) of each gopsutil probe, in the order of the calls. -/
structure Probes where
  now : ℤ
  hostUptime : Except String ℕ
  cores : Except String ℤ
  loadAvg : Except String (F64 × F64 × F64)
  memory : Except String (ℕ × ℕ)
  diskUsage : Except String (ℕ × ℕ)
  sysTimes : Except String (List TimesStat)
  netCounters : Except String (List IOCountersStat)

/-- Go `NewCollector`: no previous samples, `lastTime` the current time. -/
def NewCollector (now : ℤ) : Collector :=
  { lastNet := [], lastCPU := [], lastTime := now }

/-- Sum of the eight CPU time buckets, added left to right as in the source
(`total1`, `total2`). -/
def totalTime (t : TimesStat) : F64 :=
  F64.add (F64.add (F64.add (F64.add (F64.add (F64.add (F64.add
    t.User t.System) t.Idle) t.Nice) t.Iowait) t.Irq) t.Softirq) t.Steal

/-- The `diffTotal` of `Collect`. -/
def diffTotal (t1 t2 : TimesStat) : F64 := F64.sub (totalTime t2) (totalTime t1)

/-- The `diffSteal` of `Collect`. -/
def diffSteal (t1 t2 : TimesStat) : F64 := F64.sub t2.Steal t1.Steal

/-- The steal percentage `Collect` stores when a previous CPU sample `t1`
exists: `(diffSteal / diffTotal) * 100` if `diffTotal > 0`, else the field
keeps its zero value. -/
def cpuSteal (t1 t2 : TimesStat) : F64 :=
  if F64.zero < diffTotal t1 t2 then
    F64.mul (F64.div (diffSteal t1 t2) (diffTotal t1 t2)) (F64.fin 100)
  else F64.zero

/-- The rate in MB/s `Collect` computes from a previous and a current byte
counter over `duration` seconds: `float64(cur - prev) / 1024 / 1024 / duration`
with the `uint64` subtraction. -/
def netRate (prev cur : ℕ) (duration : F64) : F64 :=
  F64.div (F64.div (F64.div (F64.ofInt (subU64 cur prev)) (F64.fin 1024)) (F64.fin 1024))
    duration

/-- The CPU part of `Collect`: sets `CPUSteal` when both a current and a
previous sample exist, and stores the current sample. -/
def collectCPU (c : Collector) (p : Probes) (stats : SystemStats) :
    SystemStats × Collector :=
  match p.sysTimes with
  | .ok (t2 :: rest) =>
    let stats1 :=
      match c.lastCPU with
      | t1 :: _ => { stats with CPUSteal := cpuSteal t1 t2 }
      | [] => stats
    (stats1, { c with lastCPU := t2 :: rest })
  | _ => (stats, c)

/-- The network part of `Collect`: sets `NetUp` and `NetDown` when both a
current and a previous sample exist and the elapsed time is positive, and
stores the current sample. -/
def collectNet (c : Collector) (p : Probes) (stats : SystemStats) :
    SystemStats × Collector :=
  match p.netCounters with
  | .ok (n2 :: rest) =>
    let stats1 :=
      match c.lastNet with
      | n1 :: _ =>
        let duration := Seconds (timeSub p.now c.lastTime)
        if F64.zero < duration then
          { stats with
            NetUp := netRate n1.BytesSent n2.BytesSent duration
            NetDown := netRate n1.BytesRecv n2.BytesRecv duration }
        else stats
      | [] => stats
    (stats1, { c with lastNet := n2 :: rest })
  | _ => (stats, c)

/-- The first part of `Collect`: the report with the identity and absolute
metrics and zero rates, or the error of the first failing probe among host
info, load average, memory and disk (a failing core count gives `0` cores). -/
def collectBase (cfg : Config) (p : Probes) : Except String SystemStats :=
  match p.hostUptime with
  | .error err => .error ("host info: " ++ err)
  | .ok uptime =>
  let cores : ℤ := match p.cores with
    | .ok n => n
    | .error _ => 0
  match p.loadAvg with
  | .error err => .error ("load avg: " ++ err)
  | .ok (load1, load5, load15) =>
  match p.memory with
  | .error err => .error ("memory: " ++ err)
  | .ok (memUsed, memTotal) =>
  match p.diskUsage with
  | .error err => .error ("disk: " ++ err)
  | .ok (diskUsed, diskTotal) =>
  .ok
    { NodeID := cfg.NodeID, Location := cfg.Location, ISP := cfg.ISP
      Uptime := uptime, Cores := cores
      Load1 := load1, Load5 := load5, Load15 := load15
      MemUsed := memUsed, MemTotal := memTotal
      DiskUsed := diskUsed, DiskTotal := diskTotal
      CPUSteal := F64.zero, NetUp := F64.zero, NetDown := F64.zero }

/-- Go `(*Collector).Collect`: the report and the collector state after the
call, or the error of a failed host, load, memory or disk probe (the state is
then unchanged). -/
def Collect (c : Collector) (cfg : Config) (p : Probes) :
    Except String (SystemStats × Collector) :=
  match collectBase cfg p with
  | .error err => .error err
  | .ok stats =>
    let afterCPU := collectCPU c p stats
    let afterNet := collectNet afterCPU.2 p afterCPU.1
    .ok (afterNet.1, { afterNet.2 with lastTime := p.now })

/-! ## Dashboard (`dashboard/main.go`) -/

/-- A row of the `nodes` table; `Status` is computed, not stored. -/
structure Node where
  ID : String
  CreatedAt : ℤ
  UpdatedAt : ℤ
  Location : String
  ISP : String
  LastSeen : ℤ
  Cores : ℤ
  Load1 : F64
  Load5 : F64
  Load15 : F64
  MemUsed : ℕ
  MemTotal : ℕ
  DiskUsed : ℕ
  DiskTotal : ℕ
  CPUSteal : F64
  NetUp : F64
  NetDown : F64
  Status : String
deriving DecidableEq

/-- The `nodes` table: its rows, `ID` being the primary key. -/
abbrev DB := List Node

/-- GORM `db.First(&node, "id = ?", id)`: the row with that key, if any. -/
def dbFirst (db : DB) (id : String) : Option Node :=
  db.find? (fun r => r.ID == id)

/-- The row GORM writes for a value on insert: zero `CreatedAt` and
`UpdatedAt` are set to the current time, and `Status` (`gorm:"-"`) has no
column. -/
def createdRow (v : Node) (dbNow : ℤ) : Node :=
  { v with
    CreatedAt := if v.CreatedAt = 0 then dbNow else v.CreatedAt
    UpdatedAt := if v.UpdatedAt = 0 then dbNow else v.UpdatedAt
    Status := "" }

/-- Whether the SQL driver accepts the `uint64` columns of a value:
`database/sql` refuses a `uint64` with the high bit set, so a statement that
writes such a value fails before it reaches the table. -/
def storable (v : Node) : Prop :=
  v.MemUsed < 2 ^ 63 ∧ v.MemTotal < 2 ^ 63 ∧ v.DiskUsed < 2 ^ 63 ∧ v.DiskTotal < 2 ^ 63

instance storableDecidable (v : Node) : Decidable (storable v) := by
  unfold storable
  infer_instance

/-- GORM `db.Create(&v)`: inserts the row; a value the driver refuses, or an
existing row with the same primary key, makes the insert fail, and the handler
ignores the error: the table is then unchanged. -/
def dbCreate (db : DB) (v : Node) (dbNow : ℤ) : DB :=
  if ¬ storable v then db
  else if db.any (fun r => r.ID == v.ID) then db
  else db ++ [createdRow v dbNow]

/-- The row GORM writes for a value on update: every column from the value,
`UpdatedAt` set to the current time. -/
def savedRow (v : Node) (dbNow : ℤ) : Node :=
  { v with UpdatedAt := dbNow, Status := "" }

/-- GORM `db.Save(&v)`: with a zero (empty) primary key it is `Create`;
otherwise it updates all columns of the row with that key, inserting the row
when there is none.  A value the driver refuses makes the statement fail (the
handler ignores the error) and leaves the table unchanged. -/
def dbSave (db : DB) (v : Node) (dbNow : ℤ) : DB :=
  if v.ID = "" then dbCreate db v dbNow
  else if ¬ storable v then db
  else if db.any (fun r => r.ID == v.ID) then
    db.map (fun r => if r.ID = v.ID then savedRow v dbNow else r)
  else db ++ [createdRow v dbNow]

/-- The `POST /api/report` handler: the table after the request and the HTTP
status.  `token` is the `Authorization` header, `body` the result of binding
the JSON body to a `Node`, `now` the handler's clock reading and `dbNow` the
one GORM takes for its time columns. -/
def postReport (authToken : String) (db : DB) (token : String)
    (body : Except String Node) (now dbNow : ℤ) : DB × ℕ :=
  if token ≠ authToken then (db, 401)
  else
    match body with
    | .error _ => (db, 400)
    | .ok input0 =>
      let input := { input0 with LastSeen := now }
      match dbFirst db input.ID with
      | some currentNode =>
        (dbSave db { input with CreatedAt := currentNode.CreatedAt } dbNow, 200)
      | none => (dbCreate db input dbNow, 200)

/-- The `GET /api/nodes` handler: the rows as `db.Find` reads them.  No
status is derived here and `Status` has no column, so every `Status` is the
empty string. -/
def apiNodes (db : DB) : List Node := db.map (fun r => { r with Status := "" })

/-- The status the `GET /` handler gives a node at clock reading `now`
(`time.Since(n.LastSeen) > 2*time.Minute`): offline after more than two
minutes of silence.  The handler reads the clock once per node; the embedding
uses one reading for the whole request, on which no total depends. -/
def deriveStatus (now : ℤ) (n : Node) : String :=
  if 2 * Minute < timeSub now n.LastSeen then "offline" else "online"

/-- The loop variables of the `GET /` handler. -/
structure Totals where
  totalNodes : ℤ
  totalMemUsed : ℕ
  totalMemTotal : ℕ
  totalDiskUsed : ℕ
  totalDiskTotal : ℕ
  totalNetUp : F64
  totalNetDown : F64
  processedNodes : List Node
deriving DecidableEq

/-- The variables before the loop. -/
def Totals.init : Totals :=
  { totalNodes := 0, totalMemUsed := 0, totalMemTotal := 0, totalDiskUsed := 0
    totalDiskTotal := 0, totalNetUp := F64.zero, totalNetDown := F64.zero
    processedNodes := [] }

/-- One iteration of `for _, n := range nodes`. -/
def aggregateStep (now : ℤ) (t : Totals) (n : Node) : Totals :=
  { t with
    totalMemUsed := addU64 t.totalMemUsed n.MemUsed
    totalMemTotal := addU64 t.totalMemTotal n.MemTotal
    totalDiskUsed := addU64 t.totalDiskUsed n.DiskUsed
    totalDiskTotal := addU64 t.totalDiskTotal n.DiskTotal
    totalNetUp := F64.add t.totalNetUp n.NetUp
    totalNetDown := F64.add t.totalNetDown n.NetDown
    processedNodes := t.processedNodes ++ [{ n with Status := deriveStatus now n }] }

/-- The loop of the `GET /` handler run from the loop state `t`. -/
def aggregateFrom (now : ℤ) (t : Totals) (nodes : List Node) : Totals :=
  nodes.foldl (aggregateStep now) t

/-- The aggregate statistics of the `GET /` handler: the loop over the rows,
then `totalNodes = int64(len(processedNodes))`. -/
def aggregate (now : ℤ) (nodes : List Node) : Totals :=
  let t := aggregateFrom now Totals.init nodes
  { t with totalNodes := (t.processedNodes.length : ℤ) }

/-- The loop of `formatBytes`, from the state `n`, `div`, `exp`: the final
`div` and `exp`. -/
def formatBytesLoop (n : ℕ) (div : ℤ) (exp : ℕ) : ℤ × ℕ :=
  if 1024 ≤ n then formatBytesLoop (n / 1024) (wrapInt64 (div * 1024)) (exp + 1)
  else (div, exp)
termination_by n
decreasing_by omega

/-- Go `%.1f` of a `float64`: one decimal, the exact value rounded half to
even. -/
def fmtFixed1 : F64 → String
  | F64.fin q =>
    let t := (F64.roundEven (|q| * 10)).toNat
    (if q < 0 then "-" else "") ++ toString (t / 10) ++ "." ++ toString (t % 10)
  | F64.pinf => "+Inf"
  | F64.ninf => "-Inf"
  | F64.nan => "NaN"

/-- Go `formatBytes`; `none` stands for the run-time panic of an index out of
range in `"KMGTPE"[exp]`. -/
def formatBytes (b : ℕ) : Option String :=
  if b < 1024 then some (toString b ++ " B")
  else
    let r := formatBytesLoop (b / 1024) 1024 0
    match "KMGTPE".toList.get? r.2 with
    | some c =>
      some (fmtFixed1 (F64.div (F64.ofInt b) (F64.ofInt r.1)) ++ " " ++ String.singleton c)
    | none => none

/-- The report fields of a stored record: location, ISP, cores, load
averages, memory and disk used and total, CPU steal, net up and down. -/
def reportFields (n : Node) :
    String × String × ℤ × F64 × F64 × F64 × ℕ × ℕ × ℕ × ℕ × F64 × F64 × F64 :=
  (n.Location, n.ISP, n.Cores, n.Load1, n.Load5, n.Load15, n.MemUsed, n.MemTotal,
    n.DiskUsed, n.DiskTotal, n.CPUSteal, n.NetUp, n.NetDown)

/-- One request to `POST /api/report`: the `Authorization` header, the bound
body, the handler's clock reading and GORM's. -/
structure Request where
  token : String
  body : Except String Node
  now : ℤ
  dbNow : ℤ

/-- The table after a sequence of requests to `POST /api/report`, served one
after the other. -/
def postReports (authToken : String) (db : DB) (reqs : List Request) : DB :=
  reqs.foldl (fun d r => (postReport authToken d r.token r.body r.now r.dbNow).1) db

/-! ## Inputs of the examples -/

/-- The Go zero value of `cpu.TimesStat`. -/
def zeroTimes : TimesStat :=
  { User := F64.zero, System := F64.zero, Idle := F64.zero, Nice := F64.zero
    Iowait := F64.zero, Irq := F64.zero, Softirq := F64.zero, Steal := F64.zero }

/-- The Go zero value of `Node`. -/
def zeroNode : Node :=
  { ID := "", CreatedAt := 0, UpdatedAt := 0, Location := "", ISP := "", LastSeen := 0
    Cores := 0, Load1 := F64.zero, Load5 := F64.zero, Load15 := F64.zero
    MemUsed := 0, MemTotal := 0, DiskUsed := 0, DiskTotal := 0
    CPUSteal := F64.zero, NetUp := F64.zero, NetDown := F64.zero, Status := "" }

/-- An agent configuration. -/
def exampleConfig : Config :=
  { ServerURL := "http://localhost:8080", Token := "secret", NodeID := "n1"
    Location := "Unknown", ISP := "Unknown", Interval := 2 * Second }

/-- Probe results in which every probe succeeds, with the given clock reading
and CPU and network samples. -/
def okProbes (now : ℤ) (cpu : List TimesStat) (net : List IOCountersStat) : Probes :=
  { now := now, hostUptime := .ok 0, cores := .ok 1
    loadAvg := .ok (F64.zero, F64.zero, F64.zero), memory := .ok (0, 0)
    diskUsage := .ok (0, 0), sysTimes := .ok cpu, netCounters := .ok net }

/-- Previous CPU sample of the steal example: 8 s idle, nothing else. -/
def stealT1 : TimesStat := { zeroTimes with Idle := F64.fin 8 }

/-- Current CPU sample of the steal example: 8 s idle and 0.1 s steal. -/
def stealT2 : TimesStat :=
  { zeroTimes with Idle := F64.fin 8, Steal := F64.ofRat (1 / 10) }

/-- Collector of the reset example: the previous sample has 1 MiB sent. -/
def resetCollector : Collector :=
  { lastNet := [{ BytesSent := 1048576, BytesRecv := 0 }], lastCPU := [], lastTime := 0 }

/-- Probes of the reset example, one second later: the sent counter is back
at `0`. -/
def resetProbes : Probes := okProbes 1000000000 [] [{ BytesSent := 0, BytesRecv := 0 }]

/-- Collector and probes with no time elapsed between the two calls. -/
def sameTimeCollector : Collector :=
  { lastNet := [{ BytesSent := 10, BytesRecv := 10 }], lastCPU := [], lastTime := 5 }

/-- Probes read at the time stored in `sameTimeCollector`. -/
def sameTimeProbes : Probes := okProbes 5 [] [{ BytesSent := 20, BytesRecv := 30 }]

/-- Collector of the negative-steal example: the previous sample has 1 s of
steal. -/
def negCollector : Collector :=
  { lastNet := [], lastCPU := [{ zeroTimes with Steal := F64.fin 1 }], lastTime := 0 }

/-- Probes of the negative-steal example: 2 s of user time, steal back at
`0`. -/
def negProbes : Probes := okProbes 1000000000 [{ zeroTimes with User := F64.fin 2 }] []

/-- Collector of the decreasing-counters example: the previous CPU sample has
5 s of user time and 1 s of steal, the previous network sample 10 bytes each
way. -/
def decreasingCollector : Collector :=
  { lastNet := [{ BytesSent := 10, BytesRecv := 10 }]
    lastCPU := [{ zeroTimes with User := F64.fin 5, Steal := F64.fin 1 }]
    lastTime := 0 }

/-- Probes of the decreasing-counters example, one second later: every CPU
bucket is back at `0`, the byte counters have grown. -/
def decreasingProbes : Probes :=
  okProbes 1000000000 [zeroTimes] [{ BytesSent := 20, BytesRecv := 30 }]

/-- Collector of the steal example. -/
def stealCollector : Collector := { lastNet := [], lastCPU := [stealT1], lastTime := 0 }

/-- Probes of the steal example. -/
def stealProbes : Probes := okProbes 1000000000 [stealT2] []

/-- Probes of a first call, with one CPU and one network sample. -/
def firstProbes : Probes := okProbes 7 [stealT2] [{ BytesSent := 20, BytesRecv := 30 }]

/-- The report node "n1" built at `t = 0`: `mem_used = 100`, `mem_total = 200`. -/
def reportT0 : Node := { zeroNode with ID := "n1", MemUsed := 100, MemTotal := 200 }

/-- The report node "n1" built at `t = 5`: `mem_used = 150`. -/
def reportT5 : Node := { zeroNode with ID := "n1", MemUsed := 150, MemTotal := 200 }

/-- The two reports delivered out of order: the one of `t = 5` reaches the
dashboard first. -/
def outOfOrder : List Request :=
  [{ token := "secret", body := .ok reportT5, now := 10, dbNow := 10 },
   { token := "secret", body := .ok reportT0, now := 11, dbNow := 11 }]

/-- A table holding one record, created at time `7`. -/
def oneRecord : DB := [{ zeroNode with ID := "n1", CreatedAt := 7, LastSeen := 7 }]

/-- Three nodes with throughputs 0.1, 0.2 and 0.3 MB/s. -/
def nodeA : Node := { zeroNode with ID := "a", NetUp := F64.ofRat (1 / 10) }

/-- The node with 0.2 MB/s. -/
def nodeB : Node := { zeroNode with ID := "b", NetUp := F64.ofRat (1 / 5) }

/-- The node with 0.3 MB/s. -/
def nodeC : Node := { zeroNode with ID := "c", NetUp := F64.ofRat (3 / 10) }

/-- Collector of the all-steal example: the previous CPU sample is all zero. -/
def allStealCollector : Collector := { lastNet := [], lastCPU := [zeroTimes], lastTime := 0 }

/-- Probes of the all-steal example: one second of steal, nothing else. -/
def allStealProbes : Probes :=
  okProbes 1000000000 [{ zeroTimes with Steal := F64.fin 1 }] []

end Kiloa

/-! # Proofs -/

/-! ## Rounding to binary64 -/

namespace Kiloa
namespace F64

theorem roundEven_mem (x : ℚ) : roundEven x = ⌊x⌋ ∨ (roundEven x = ⌊x⌋ + 1 ∧ 1 / 2 ≤ x - ⌊x⌋) := by
  unfold roundEven
  split_ifs with h1 h2 h3
  · exact Or.inl rfl
  · exact Or.inr ⟨rfl, le_of_lt h2⟩
  · exact Or.inl rfl
  · exact Or.inr ⟨rfl, not_lt.mp h1⟩

theorem roundEven_le {x : ℚ} {n : ℤ} (h : x ≤ n) : roundEven x ≤ n := by
  rcases roundEven_mem x with h1 | ⟨h1, h2⟩
  · rw [h1]
    exact_mod_cast (Int.floor_le x).trans h
  · rw [h1]
    have hlt : (⌊x⌋ : ℚ) < n := by linarith
    have : ⌊x⌋ < n := by exact_mod_cast hlt
    omega

theorem le_roundEven {x : ℚ} {n : ℤ} (h : (n : ℚ) ≤ x) : n ≤ roundEven x := by
  have hf : n ≤ ⌊x⌋ := Int.le_floor.mpr h
  rcases roundEven_mem x with h1 | ⟨h1, _⟩ <;> rw [h1] <;> omega

theorem roundEven_intCast (n : ℤ) : roundEven (n : ℚ) = n :=
  le_antisymm (roundEven_le le_rfl) (le_roundEven le_rfl)

theorem ulp_pos (q : ℚ) : 0 < ulp q := by
  unfold ulp; positivity

theorem log_le_of_lt_zpow {q : ℚ} {z : ℤ} (hq : 0 < q) (h : q < (2 : ℚ) ^ z) :
    Int.log 2 q < z :=
  (Int.lt_zpow_iff_log_lt (b := 2) (by norm_num) hq).1 (by exact_mod_cast h)

theorem le_log_of_zpow_le {q : ℚ} {z : ℤ} (hq : 0 < q) (h : (2 : ℚ) ^ z ≤ q) :
    z ≤ Int.log 2 q :=
  (Int.zpow_le_iff_le_log (b := 2) (by norm_num) hq).1 (by exact_mod_cast h)

theorem zpow_log_le {q : ℚ} (hq : 0 < q) : (2 : ℚ) ^ Int.log 2 q ≤ q := by
  have := Int.zpow_log_le_self (b := 2) (by norm_num) hq
  exact_mod_cast this

theorem lt_zpow_log_succ (q : ℚ) : q < (2 : ℚ) ^ (Int.log 2 q + 1) := by
  have := Int.lt_zpow_succ_log_self (b := 2) (by norm_num) q
  exact_mod_cast this

theorem huge_pos : 0 < huge := by
  unfold huge; positivity

theorem round_of_lt {q r : ℚ} (hr : r = roundEven (q / ulp q) * ulp q)
    (h1 : r < huge) (h2 : -huge < r) : round q = fin r := by
  unfold round
  simp only [← hr]
  rw [if_neg (not_le.mpr h1), if_neg (not_le.mpr h2)]

theorem round_zero : round 0 = fin 0 := by
  apply round_of_lt
  · rw [zero_div]
    have := roundEven_intCast 0
    simp only [Int.cast_zero] at this
    rw [this]; simp
  · exact huge_pos
  · simpa using huge_pos

theorem round_cases (q : ℚ) :
    (round q = pinf ∧ huge ≤ roundEven (q / ulp q) * ulp q) ∨
    (round q = ninf ∧ (roundEven (q / ulp q) : ℚ) * ulp q ≤ -huge) ∨
    (round q = fin (roundEven (q / ulp q) * ulp q) ∧
      (roundEven (q / ulp q) : ℚ) * ulp q < huge ∧
      -huge < (roundEven (q / ulp q) : ℚ) * ulp q) := by
  unfold round
  by_cases h1 : huge ≤ (roundEven (q / ulp q) : ℚ) * ulp q
  · left
    exact ⟨if_pos h1, h1⟩
  · by_cases h2 : (roundEven (q / ulp q) : ℚ) * ulp q ≤ -huge
    · right; left
      refine ⟨?_, h2⟩
      simp only [if_neg h1, if_pos h2]
    · right; right
      refine ⟨?_, not_le.mp h1, not_le.mp h2⟩
      simp only [if_neg h1, if_neg h2]

theorem round_nonneg {q : ℚ} (h : 0 ≤ q) : zero ≤ round q := by
  have hr : (0 : ℚ) ≤ roundEven (q / ulp q) * ulp q := by
    have h1 : (0 : ℤ) ≤ roundEven (q / ulp q) :=
      le_roundEven (by simpa using div_nonneg h (ulp_pos q).le)
    have h2 : (0 : ℚ) ≤ (roundEven (q / ulp q) : ℚ) := by exact_mod_cast h1
    exact mul_nonneg h2 (ulp_pos q).le
  show le (fin 0) (round q)
  rcases round_cases q with ⟨h1, _⟩ | ⟨_, h2⟩ | ⟨h3, _, _⟩
  · rw [h1]; simp [le]
  · exfalso
    have := huge_pos
    linarith
  · rw [h3]; exact hr

theorem round_nonpos {q : ℚ} (h : q ≤ 0) : round q ≤ zero := by
  have hr : (roundEven (q / ulp q) : ℚ) * ulp q ≤ 0 := by
    have h1 : roundEven (q / ulp q) ≤ (0 : ℤ) :=
      roundEven_le (by simpa using div_nonpos_of_nonpos_of_nonneg h (ulp_pos q).le)
    have h2 : (roundEven (q / ulp q) : ℚ) ≤ 0 := by exact_mod_cast h1
    exact mul_nonpos_of_nonpos_of_nonneg h2 (ulp_pos q).le
  show le (round q) (fin 0)
  rcases round_cases q with ⟨_, h1⟩ | ⟨h2, _⟩ | ⟨h3, _, _⟩
  · exfalso
    have := huge_pos
    linarith
  · rw [h2]; simp [le]
  · rw [h3]; exact hr

end F64
end Kiloa

namespace Kiloa
namespace F64

theorem two_zpow_pos (z : ℤ) : (0 : ℚ) < (2 : ℚ) ^ z := by positivity

theorem ulp_eq {q : ℚ} {e : ℤ} (h1 : (2 : ℚ) ^ e ≤ |q|) (h2 : |q| < (2 : ℚ) ^ (e + 1))
    (he : -1022 ≤ e) : ulp q = (2 : ℚ) ^ (e - 52) := by
  have hq : 0 < |q| := lt_of_lt_of_le (two_zpow_pos e) h1
  have hlog : Int.log 2 |q| = e := by
    have ha := log_le_of_lt_zpow hq h2
    have hb := le_log_of_zpow_le hq h1
    omega
  unfold ulp
  rw [hlog, max_eq_left he]

/-- Evaluation of `round` at a value with known binade `e` and known rounded
significand `m`. -/
theorem round_eval {q : ℚ} (e m : ℤ) (h1 : (2 : ℚ) ^ e ≤ |q|) (h2 : |q| < (2 : ℚ) ^ (e + 1))
    (he : -1022 ≤ e) (hm : roundEven (q / (2 : ℚ) ^ (e - 52)) = m)
    (hlt : |(m : ℚ) * (2 : ℚ) ^ (e - 52)| < huge) :
    round q = fin (m * (2 : ℚ) ^ (e - 52)) := by
  have hu := ulp_eq h1 h2 he
  have habs := abs_lt.mp hlt
  apply round_of_lt
  · rw [hu, hm]
  · exact habs.2
  · exact habs.1

/-- Rounding fixes every representable value: a significand of at most 53 bits
times a power of two in the exponent range. -/
theorem round_dyadic (m k : ℤ) (hm : |m| < 2 ^ 53) (hk1 : -1074 ≤ k) (hk2 : k ≤ 971) :
    round ((m : ℚ) * (2 : ℚ) ^ k) = fin ((m : ℚ) * (2 : ℚ) ^ k) := by
  have h2k := two_zpow_pos k
  rcases eq_or_ne m 0 with hm0 | hm0
  · rw [hm0]
    simpa using round_zero
  have hmq : |(m : ℚ)| < (2 : ℚ) ^ (53 : ℤ) := by
    have h : ((|m| : ℤ) : ℚ) < ((2 ^ 53 : ℤ) : ℚ) := by exact_mod_cast hm
    rw [Int.cast_abs] at h
    norm_num at h ⊢
    exact h
  have habs : |(m : ℚ) * (2 : ℚ) ^ k| < (2 : ℚ) ^ (53 + k) := by
    rw [abs_mul, abs_of_pos h2k, zpow_add₀ (by norm_num : (2 : ℚ) ≠ 0)]
    exact mul_lt_mul_of_pos_right hmq h2k
  -- the grid spacing at the value divides `2 ^ k`
  have hexp : max (Int.log 2 |(m : ℚ) * (2 : ℚ) ^ k|) (-1022) - 52 ≤ k := by
    have hq : 0 < |(m : ℚ) * (2 : ℚ) ^ k| :=
      abs_pos.mpr (mul_ne_zero (by exact_mod_cast hm0) h2k.ne')
    have := log_le_of_lt_zpow hq habs
    rcases max_cases (Int.log 2 |(m : ℚ) * (2 : ℚ) ^ k|) (-1022) with ⟨h, _⟩ | ⟨h, _⟩ <;>
      rw [h] <;> omega
  obtain ⟨j, hj⟩ := Int.eq_ofNat_of_zero_le (sub_nonneg.mpr hexp)
  have hdiv : (m : ℚ) * (2 : ℚ) ^ k / ulp ((m : ℚ) * (2 : ℚ) ^ k) = ((m * 2 ^ j : ℤ) : ℚ) := by
    unfold ulp
    rw [mul_div_assoc, ← zpow_sub₀ (by norm_num : (2 : ℚ) ≠ 0), hj]
    push_cast
    rw [zpow_natCast]
  have hmul : ((m * 2 ^ j : ℤ) : ℚ) * ulp ((m : ℚ) * (2 : ℚ) ^ k) = (m : ℚ) * (2 : ℚ) ^ k := by
    rw [← hdiv]
    exact div_mul_cancel₀ _ (ulp_pos _).ne'
  have hhuge : (2 : ℚ) ^ (53 + k) ≤ huge := by
    unfold huge
    rw [← zpow_natCast]
    exact zpow_le_zpow_right₀ (by norm_num) (by push_cast; omega)
  have hb := abs_lt.mp (lt_of_lt_of_le habs hhuge)
  apply round_of_lt
  · rw [hdiv, roundEven_intCast, hmul]
  · exact hb.2
  · exact hb.1

/-- Rounding never crosses a representable value: a non-negative exact result
below the grid point `K` rounds to a finite value between `0` and `K`. -/
theorem round_le_grid {q K : ℚ} (mK : ℤ) (hq0 : 0 ≤ q) (hqK : q ≤ K)
    (hK : K = mK * ulp K) (hKlt : K < huge) :
    ∃ r, round q = fin r ∧ 0 ≤ r ∧ r ≤ K := by
  have hr0 : (0 : ℚ) ≤ roundEven (q / ulp q) * ulp q := by
    have h1 : (0 : ℤ) ≤ roundEven (q / ulp q) :=
      le_roundEven (by simpa using div_nonneg hq0 (ulp_pos q).le)
    have h2 : (0 : ℚ) ≤ (roundEven (q / ulp q) : ℚ) := by exact_mod_cast h1
    exact mul_nonneg h2 (ulp_pos q).le
  have hrK : (roundEven (q / ulp q) : ℚ) * ulp q ≤ K := by
    rcases eq_or_lt_of_le hq0 with h0 | hpos
    · rw [← h0, zero_div]
      have := roundEven_intCast 0
      simp only [Int.cast_zero] at this
      rw [this]
      simpa using hq0.trans hqK
    · have hKpos : 0 < K := lt_of_lt_of_le hpos hqK
      have hlog : Int.log 2 |q| ≤ Int.log 2 |K| := by
        rw [abs_of_pos hpos, abs_of_pos hKpos]
        exact Int.log_mono_right hpos hqK
      have hle : max (Int.log 2 |q|) (-1022) ≤ max (Int.log 2 |K|) (-1022) :=
        max_le_max hlog le_rfl
      rcases eq_or_lt_of_le hle with heq | hlt
      · -- same binade: the significand of `q` is at most that of `K`
        have hu : ulp q = ulp K := by unfold ulp; rw [heq]
        have h1 : q / ulp q ≤ (mK : ℚ) := by
          rw [hu, div_le_iff₀ (ulp_pos K), ← hK]
          exact hqK
        have h2 : (roundEven (q / ulp q) : ℚ) ≤ (mK : ℚ) := by exact_mod_cast roundEven_le h1
        calc (roundEven (q / ulp q) : ℚ) * ulp q ≤ (mK : ℚ) * ulp q :=
              mul_le_mul_of_nonneg_right h2 (ulp_pos q).le
          _ = K := by rw [hu, ← hK]
      · -- lower binade: the rounded value is at most the next power of two
        set e := max (Int.log 2 |q|) (-1022) with he
        have hqlt : q < (2 : ℚ) ^ (e + 1) := by
          have h1 := lt_zpow_log_succ |q|
          have h7 := le_max_left (Int.log 2 |q|) (-1022)
          have h8 : (2 : ℚ) ^ (Int.log 2 |q| + 1) ≤ (2 : ℚ) ^ (e + 1) :=
            zpow_le_zpow_right₀ (by norm_num) (by omega)
          rw [abs_of_pos hpos] at h1 h8
          exact lt_of_lt_of_le h1 h8
        have hu : ulp q = (2 : ℚ) ^ (e - 52) := rfl
        have h1 : q / ulp q ≤ ((2 ^ 53 : ℤ) : ℚ) := by
          rw [div_le_iff₀ (ulp_pos q), hu]
          have : ((2 ^ 53 : ℤ) : ℚ) * (2 : ℚ) ^ (e - 52) = (2 : ℚ) ^ (e + 1) := by
            have h53 : ((2 ^ 53 : ℤ) : ℚ) = (2 : ℚ) ^ (53 : ℤ) := by norm_num
            rw [h53, ← zpow_add₀ (by norm_num : (2 : ℚ) ≠ 0)]
            congr 1
            omega
          rw [this]
          exact hqlt.le
        have h2 : (roundEven (q / ulp q) : ℚ) ≤ ((2 ^ 53 : ℤ) : ℚ) := by
          exact_mod_cast roundEven_le h1
        have h3 : (roundEven (q / ulp q) : ℚ) * ulp q ≤ (2 : ℚ) ^ (e + 1) := by
          have : ((2 ^ 53 : ℤ) : ℚ) * ulp q = (2 : ℚ) ^ (e + 1) := by
            rw [hu]
            have h53 : ((2 ^ 53 : ℤ) : ℚ) = (2 : ℚ) ^ (53 : ℤ) := by norm_num
            rw [h53, ← zpow_add₀ (by norm_num : (2 : ℚ) ≠ 0)]
            congr 1
            omega
          rw [← this]
          exact mul_le_mul_of_nonneg_right h2 (ulp_pos q).le
        have hKlog : max (Int.log 2 |K|) (-1022) = Int.log 2 |K| := by
          apply max_eq_left
          have := le_max_right (Int.log 2 |q|) (-1022)
          by_contra hcon
          rw [max_eq_right (by omega)] at hlt
          omega
        have h4 : (2 : ℚ) ^ (e + 1) ≤ K := by
          have h5 : (2 : ℚ) ^ (e + 1) ≤ (2 : ℚ) ^ (Int.log 2 |K|) :=
            zpow_le_zpow_right₀ (by norm_num) (by omega)
          have h6 := zpow_log_le (abs_pos.mpr hKpos.ne')
          rw [abs_of_pos hKpos] at h6 h5
          exact h5.trans h6
        exact h3.trans h4
  refine ⟨_, round_of_lt rfl (lt_of_le_of_lt hrK hKlt) ?_, hr0, hrK⟩
  have := huge_pos
  linarith

end F64
end Kiloa

/-! ## Signs of float64 results and of the rates -/

namespace Kiloa

theorem tmod_nonpos {d : ℤ} (b : ℤ) (h : d ≤ 0) : Int.tmod d b ≤ 0 := by
  obtain ⟨a, rfl⟩ : ∃ a : ℤ, d = -a := ⟨-d, by omega⟩
  have ha : 0 ≤ a := by omega
  have h1 := Int.tmod_nonneg b ha
  have h2 := Int.tmod_add_tdiv a b
  have h3 := Int.tmod_add_tdiv (-a) b
  rw [Int.neg_tdiv] at h3
  have : b * -(a.tdiv b) = -(b * a.tdiv b) := by ring
  rw [this] at h3
  omega

theorem tdiv_nonpos_left {d b : ℤ} (h : d ≤ 0) (hb : 0 ≤ b) : Int.tdiv d b ≤ 0 := by
  obtain ⟨a, rfl⟩ : ∃ a : ℤ, d = -a := ⟨-d, by omega⟩
  have ha : 0 ≤ a := by omega
  have := Int.tdiv_nonneg ha hb
  rw [Int.neg_tdiv]
  omega

namespace F64

theorem nonneg_cases {x : F64} (h : zero ≤ x) : x = pinf ∨ ∃ r, x = fin r ∧ 0 ≤ r := by
  cases x with
  | fin r => exact Or.inr ⟨r, rfl, h⟩
  | pinf => exact Or.inl rfl
  | ninf => exact absurd h (by simp [LE.le, le, zero])
  | nan => exact absurd h (by simp [LE.le, le, zero])

theorem nonpos_cases {x : F64} (h : x ≤ zero) : x = ninf ∨ ∃ r, x = fin r ∧ r ≤ 0 := by
  cases x with
  | fin r => exact Or.inr ⟨r, rfl, h⟩
  | pinf => exact absurd h (by simp [LE.le, le, zero])
  | ninf => exact Or.inl rfl
  | nan => exact absurd h (by simp [LE.le, le, zero])

theorem pos_cases {x : F64} (h : zero < x) : x = pinf ∨ ∃ r, x = fin r ∧ 0 < r := by
  cases x with
  | fin r => exact Or.inr ⟨r, rfl, h⟩
  | pinf => exact Or.inl rfl
  | ninf => exact absurd h (by simp [LT.lt, lt, zero])
  | nan => exact absurd h (by simp [LT.lt, lt, zero])

theorem zero_le_pinf : zero ≤ pinf := by
  show le (fin 0) pinf
  simp [le]

theorem ninf_le_zero : ninf ≤ zero := by
  show le ninf (fin 0)
  simp [le]

theorem zero_le_zero : zero ≤ zero := by
  show le (fin 0) (fin 0)
  simp [le]

theorem zero_le_fin {r : ℚ} (h : 0 ≤ r) : zero ≤ fin r := h

theorem not_pos_of_nonpos {x : F64} (h : x ≤ zero) : ¬ (zero < x) := by
  rcases nonpos_cases h with rfl | ⟨r, rfl, hr⟩
  · simp [LT.lt, lt, zero]
  · intro h2
    have h3 : (0 : ℚ) < r := h2
    linarith

theorem add_le_zero {x y : F64} (hx : x ≤ zero) (hy : y ≤ zero) : add x y ≤ zero := by
  rcases nonpos_cases hx with rfl | ⟨a, rfl, ha⟩ <;>
    rcases nonpos_cases hy with rfl | ⟨b, rfl, hb⟩
  · exact ninf_le_zero
  · exact ninf_le_zero
  · exact ninf_le_zero
  · exact round_nonpos (by linarith)

theorem div_le_zero {x : F64} {b : ℚ} (hx : x ≤ zero) (hb : 0 < b) :
    div x (fin b) ≤ zero := by
  rcases nonpos_cases hx with rfl | ⟨a, rfl, ha⟩
  · simp only [div, if_pos hb.le]
    exact ninf_le_zero
  · simp only [div, if_neg hb.ne']
    exact round_nonpos (div_nonpos_of_nonpos_of_nonneg ha hb.le)

theorem div_fin_nonneg {x d : F64} (hx : ∃ r, x = fin r ∧ 0 ≤ r) (hd : zero < d) :
    zero ≤ div x d := by
  obtain ⟨a, rfl, ha⟩ := hx
  rcases pos_cases hd with rfl | ⟨b, rfl, hb⟩
  · exact zero_le_zero
  · simp only [div, if_neg hb.ne']
    exact round_nonneg (div_nonneg ha hb.le)

theorem mul_hundred_nonneg {x : F64} (hx : zero ≤ x) : zero ≤ mul x (fin 100) := by
  rcases nonneg_cases hx with rfl | ⟨a, rfl, ha⟩
  · simp only [mul]
    norm_num
    exact zero_le_pinf
  · exact round_nonneg (by positivity)

theorem ulp_two_zpow (k : ℤ) (hk : -1022 ≤ k) : ulp ((2 : ℚ) ^ k) = (2 : ℚ) ^ (k - 52) := by
  have hpos := two_zpow_pos k
  apply ulp_eq _ _ hk
  · rw [abs_of_pos hpos]
  · rw [abs_of_pos hpos]
    exact zpow_lt_zpow_right₀ (by norm_num) (by omega)

/-- A non-negative exact result of at most `2 ^ k` rounds to a finite value
between `0` and `2 ^ k`. -/
theorem round_le_two_zpow {q : ℚ} (k : ℤ) (h0 : 0 ≤ q) (hq : q ≤ (2 : ℚ) ^ k)
    (hk1 : -1022 ≤ k) (hk2 : k < 1024) : ∃ r, round q = fin r ∧ 0 ≤ r ∧ r ≤ (2 : ℚ) ^ k := by
  apply round_le_grid (2 ^ 52) h0 hq
  · rw [ulp_two_zpow k hk1]
    have h52 : ((2 ^ 52 : ℤ) : ℚ) = (2 : ℚ) ^ (52 : ℤ) := by norm_num
    rw [h52, ← zpow_add₀ (by norm_num : (2 : ℚ) ≠ 0)]
    congr 1
    omega
  · unfold huge
    rw [← zpow_natCast]
    exact zpow_lt_zpow_right₀ (by norm_num) (by push_cast; omega)

end F64

theorem Seconds_not_pos {d : ℤ} (h : d ≤ 0) : ¬ (F64.zero < Seconds d) := by
  apply F64.not_pos_of_nonpos
  unfold Seconds
  apply F64.add_le_zero
  · apply F64.round_nonpos
    exact_mod_cast tdiv_nonpos_left h (by norm_num [Second])
  · apply F64.div_le_zero _ (by norm_num)
    apply F64.round_nonpos
    exact_mod_cast tmod_nonpos Second h

theorem subU64_lt (a b : ℕ) : subU64 a b < 2 ^ 64 := by
  unfold subU64
  exact Nat.mod_lt _ (by norm_num)

theorem netRate_nonneg (prev cur : ℕ) {d : F64} (hd : F64.zero < d) :
    F64.zero ≤ netRate prev cur d := by
  unfold netRate
  apply F64.div_fin_nonneg _ hd
  have hlt := subU64_lt cur prev
  have h0 : (0 : ℚ) ≤ ((subU64 cur prev : ℕ) : ℚ) := by positivity
  have h64 : ((subU64 cur prev : ℕ) : ℚ) ≤ (2 : ℚ) ^ (64 : ℤ) := by
    have : ((subU64 cur prev : ℕ) : ℚ) ≤ ((2 ^ 64 : ℕ) : ℚ) := by exact_mod_cast hlt.le
    norm_num at this ⊢
    exact this
  obtain ⟨r1, hr1, hr1a, hr1b⟩ := F64.round_le_two_zpow 64 h0 h64 (by norm_num) (by norm_num)
  have e1 : F64.ofInt ((subU64 cur prev : ℕ) : ℤ) = F64.fin r1 := by
    unfold F64.ofInt
    rw [← hr1]
    norm_num
  rw [e1]
  have h1024 : (1024 : ℚ) ≠ 0 := by norm_num
  have hq2 : r1 / 1024 ≤ (2 : ℚ) ^ (54 : ℤ) := by
    rw [div_le_iff₀ (by norm_num)]
    calc r1 ≤ (2 : ℚ) ^ (64 : ℤ) := hr1b
      _ = (2 : ℚ) ^ (54 : ℤ) * 1024 := by norm_num
  obtain ⟨r2, hr2, hr2a, hr2b⟩ :=
    F64.round_le_two_zpow 54 (div_nonneg hr1a (by norm_num)) hq2 (by norm_num) (by norm_num)
  have e2 : F64.div (F64.fin r1) (F64.fin 1024) = F64.fin r2 := by
    simp only [F64.div, if_neg h1024]
    exact hr2
  rw [e2]
  have hq3 : r2 / 1024 ≤ (2 : ℚ) ^ (44 : ℤ) := by
    rw [div_le_iff₀ (by norm_num)]
    calc r2 ≤ (2 : ℚ) ^ (54 : ℤ) := hr2b
      _ = (2 : ℚ) ^ (44 : ℤ) * 1024 := by norm_num
  obtain ⟨r3, hr3, hr3a, _⟩ :=
    F64.round_le_two_zpow 44 (div_nonneg hr2a (by norm_num)) hq3 (by norm_num) (by norm_num)
  refine ⟨r3, ?_, hr3a⟩
  simp only [F64.div, if_neg h1024]
  exact hr3

end Kiloa

/-! ## The steps of `Collect` -/

namespace Kiloa

theorem collectCPU_net (c : Collector) (p : Probes) (s : SystemStats) :
    (collectCPU c p s).1.NetUp = s.NetUp ∧ (collectCPU c p s).1.NetDown = s.NetDown ∧
    (collectCPU c p s).2.lastNet = c.lastNet ∧ (collectCPU c p s).2.lastTime = c.lastTime := by
  unfold collectCPU
  split
  · split <;> exact ⟨rfl, rfl, rfl, rfl⟩
  · exact ⟨rfl, rfl, rfl, rfl⟩

theorem collectCPU_steal (c : Collector) (p : Probes) (s : SystemStats) :
    (collectCPU c p s).1.CPUSteal = s.CPUSteal ∨
    ∃ t1 r1 t2 r2, c.lastCPU = t1 :: r1 ∧ p.sysTimes = .ok (t2 :: r2) ∧
      (collectCPU c p s).1.CPUSteal = cpuSteal t1 t2 := by
  unfold collectCPU
  split
  next t2 r2 h2 =>
    split
    next t1 r1 h1 => exact Or.inr ⟨t1, r1, t2, r2, h1, h2, rfl⟩
    next => exact Or.inl rfl
  next => exact Or.inl rfl

theorem collectCPU_lastCPU (c : Collector) (p : Probes) (s : SystemStats) :
    (collectCPU c p s).2.lastCPU =
      match p.sysTimes with
      | .ok (t :: ts) => t :: ts
      | _ => c.lastCPU := by
  unfold collectCPU
  split <;> rfl

theorem collectNet_cpu (c : Collector) (p : Probes) (s : SystemStats) :
    (collectNet c p s).1.CPUSteal = s.CPUSteal ∧
    (collectNet c p s).2.lastCPU = c.lastCPU := by
  unfold collectNet
  split
  · split
    · by_cases hd : F64.zero < Seconds (timeSub p.now c.lastTime)
      · simp only [if_pos hd, and_self]
      · simp only [if_neg hd, and_self]
    · exact ⟨rfl, rfl⟩
  · exact ⟨rfl, rfl⟩

theorem collectNet_lastNet (c : Collector) (p : Probes) (s : SystemStats) :
    (collectNet c p s).2.lastNet =
      match p.netCounters with
      | .ok (n :: ns) => n :: ns
      | _ => c.lastNet := by
  unfold collectNet
  split <;> rfl

theorem collectNet_rates (c : Collector) (p : Probes) (s : SystemStats) :
    ((collectNet c p s).1.NetUp = s.NetUp ∧ (collectNet c p s).1.NetDown = s.NetDown) ∨
    ∃ n1 r1 n2 r2, c.lastNet = n1 :: r1 ∧ p.netCounters = .ok (n2 :: r2) ∧
      F64.zero < Seconds (timeSub p.now c.lastTime) ∧
      (collectNet c p s).1.NetUp =
        netRate n1.BytesSent n2.BytesSent (Seconds (timeSub p.now c.lastTime)) ∧
      (collectNet c p s).1.NetDown =
        netRate n1.BytesRecv n2.BytesRecv (Seconds (timeSub p.now c.lastTime)) := by
  unfold collectNet
  split
  next n2 r2 h2 =>
    split
    next n1 r1 h1 =>
      by_cases hd : F64.zero < Seconds (timeSub p.now c.lastTime)
      · refine Or.inr ⟨n1, r1, n2, r2, h1, h2, hd, ?_, ?_⟩ <;> simp only [if_pos hd]
      · refine Or.inl ⟨?_, ?_⟩ <;> simp only [if_neg hd]
    next => exact Or.inl ⟨rfl, rfl⟩
  next => exact Or.inl ⟨rfl, rfl⟩

theorem collectBase_rates {cfg : Config} {p : Probes} {s : SystemStats}
    (h : collectBase cfg p = .ok s) :
    s.CPUSteal = F64.zero ∧ s.NetUp = F64.zero ∧ s.NetDown = F64.zero := by
  unfold collectBase at h
  cases h1 : p.hostUptime <;> rw [h1] at h <;> simp only at h
  · exact absurd h (by simp)
  cases h2 : p.loadAvg <;> rw [h2] at h <;> simp only at h
  · exact absurd h (by simp)
  cases h3 : p.memory <;> rw [h3] at h <;> simp only at h
  · exact absurd h (by simp)
  cases h4 : p.diskUsage <;> rw [h4] at h <;> simp only at h
  · exact absurd h (by simp)
  simp only [Except.ok.injEq] at h
  subst h
  exact ⟨rfl, rfl, rfl⟩

/-- A successful `Collect` is the CPU step, then the network step, run on a
report whose three rates are zero. -/
theorem Collect_ok {c : Collector} {cfg : Config} {p : Probes} {stats : SystemStats}
    {c' : Collector} (h : Collect c cfg p = .ok (stats, c')) :
    ∃ s0 : SystemStats, s0.CPUSteal = F64.zero ∧ s0.NetUp = F64.zero ∧ s0.NetDown = F64.zero ∧
      stats = (collectNet (collectCPU c p s0).2 p (collectCPU c p s0).1).1 ∧
      c' = { (collectNet (collectCPU c p s0).2 p (collectCPU c p s0).1).2 with
              lastTime := p.now } := by
  unfold Collect at h
  cases hb : collectBase cfg p with
  | error e => rw [hb] at h; exact absurd h (by simp)
  | ok s0 =>
    rw [hb] at h
    simp only [Except.ok.injEq, Prod.mk.injEq] at h
    obtain ⟨hr1, hr2, hr3⟩ := collectBase_rates hb
    exact ⟨s0, hr1, hr2, hr3, h.1.symm, h.2.symm⟩

end Kiloa

/-! ## Evaluation of the steal example -/

namespace Kiloa
namespace F64

theorem zero_def : zero = fin 0 := rfl

/-- Rounding fixes `q` when `q = m * 2 ^ k` with `|m| < 2 ^ 53` and `k` in the
exponent range. -/
theorem round_fix {q : ℚ} (m k : ℤ) (hq : q = (m : ℚ) * (2 : ℚ) ^ k) (hm : |m| < 2 ^ 53)
    (hk1 : -1074 ≤ k) (hk2 : k ≤ 971) : round q = fin q := by
  rw [hq]
  exact round_dyadic m k hm hk1 hk2

theorem round_natCast (n : ℕ) (h : n < 2 ^ 53) : round (n : ℚ) = fin (n : ℚ) := by
  apply round_fix (n : ℤ) 0 (by simp) _ (by norm_num) (by norm_num)
  rw [abs_of_nonneg (by positivity)]
  exact_mod_cast h

theorem add_zero_zero : add (fin 0) (fin 0) = fin 0 := by
  simp only [add, add_zero]
  exact round_zero

theorem add_fin_zero_of_round {a : ℚ} (h : round a = fin a) : add (fin a) (fin 0) = fin a := by
  simp only [add, add_zero]
  exact h

theorem round_tenth : round (1 / 10) = fin (3602879701896397 / 36028797018963968) := by
  have h := round_eval (q := 1 / 10) (-4) 7205759403792794 (by norm_num [abs_of_pos])
    (by norm_num [abs_of_pos]) (by norm_num) (by norm_num [roundEven])
    (by norm_num [huge, abs_of_pos])
  rw [h]
  norm_num

end F64

theorem totalTime_stealT1 : totalTime stealT1 = F64.fin 8 := by
  have h8 : F64.round 8 = F64.fin 8 := by
    simpa using F64.round_natCast 8 (by norm_num)
  have h08 : F64.add (F64.fin 0) (F64.fin 8) = F64.fin 8 := by
    simp only [F64.add, zero_add]
    exact h8
  simp only [totalTime, stealT1, zeroTimes, F64.zero_def, F64.add_zero_zero, h08,
    F64.add_fin_zero_of_round h8]

theorem totalTime_stealT2 :
    totalTime stealT2 = F64.fin (4559894622712627 / 562949953421312) := by
  have h8 : F64.round 8 = F64.fin 8 := by
    simpa using F64.round_natCast 8 (by norm_num)
  have h08 : F64.add (F64.fin 0) (F64.fin 8) = F64.fin 8 := by
    simp only [F64.add, zero_add]
    exact h8
  have hsum : F64.add (F64.fin 8) (F64.fin (3602879701896397 / 36028797018963968)) =
      F64.fin (4559894622712627 / 562949953421312) := by
    simp only [F64.add]
    have h := F64.round_eval (q := 8 + 3602879701896397 / 36028797018963968) 3
      4559894622712627 (by norm_num [abs_of_pos]) (by norm_num [abs_of_pos]) (by norm_num)
      (by norm_num [F64.roundEven]) (by norm_num [F64.huge, abs_of_pos])
    rw [h]
    norm_num
  simp only [totalTime, stealT2, zeroTimes, F64.zero_def, F64.add_zero_zero, h08,
    F64.add_fin_zero_of_round h8, F64.ofRat, F64.round_tenth, hsum]

theorem diffTotal_steal :
    diffTotal stealT1 stealT2 = F64.fin (56294995342131 / 562949953421312) := by
  rw [diffTotal, totalTime_stealT1, totalTime_stealT2]
  simp only [F64.sub, F64.neg, F64.add]
  have h := F64.round_fix (q := 4559894622712627 / 562949953421312 + -8) 56294995342131 (-49)
    (by norm_num) (by norm_num) (by norm_num) (by norm_num)
  rw [h]
  norm_num

theorem diffSteal_steal :
    diffSteal stealT1 stealT2 = F64.fin (3602879701896397 / 36028797018963968) := by
  simp only [diffSteal, stealT1, stealT2, zeroTimes, F64.zero_def, F64.ofRat, F64.round_tenth,
    F64.sub, F64.neg, F64.add]
  have h := F64.round_fix (q := 3602879701896397 / 36028797018963968 + -0) 3602879701896397
    (-55) (by norm_num) (by norm_num) (by norm_num) (by norm_num)
  rw [h]
  norm_num

theorem cpuSteal_steal :
    cpuSteal stealT1 stealT2 = F64.fin (7036874417766425 / 70368744177664) := by
  have hpos : F64.zero < diffTotal stealT1 stealT2 := by
    rw [diffTotal_steal]
    show F64.lt (F64.fin 0) (F64.fin _)
    simp only [F64.lt]
    norm_num
  rw [cpuSteal, if_pos hpos, diffTotal_steal, diffSteal_steal]
  have hne : (56294995342131 / 562949953421312 : ℚ) ≠ 0 := by norm_num
  simp only [F64.div, if_neg hne]
  have h := F64.round_eval
    (q := 3602879701896397 / 36028797018963968 / (56294995342131 / 562949953421312)) 0
      4503599627370512 (by norm_num [abs_of_pos]) (by norm_num [abs_of_pos]) (by norm_num)
      (by norm_num [F64.roundEven]) (by norm_num [F64.huge, abs_of_pos])
  rw [h]
  simp only [F64.mul]
  have h2 := F64.round_fix (q := (4503599627370512 : ℤ) * (2 : ℚ) ^ ((0 : ℤ) - 52) * 100)
    7036874417766425 (-46) (by norm_num) (by norm_num) (by norm_num) (by norm_num)
  rw [h2]
  norm_num

end Kiloa

/-! ## C9: the first sample -/

namespace Kiloa

/-- C9: a `Collect` call on a freshly constructed collector, whose host, load,
memory and disk probes succeed, returns a report (no error, whatever the CPU
and network probes deliver) with `CPUSteal`, `NetUp` and `NetDown` zero, and
afterwards the stored previous samples are the current ones and `lastTime` is
the time of the call. -/
theorem C9_first_sample_zero_rates (now0 : ℤ) (cfg : Config) (p : Probes) (s0 : SystemStats)
    (hbase : collectBase cfg p = .ok s0) :
    ∃ stats c', Collect (NewCollector now0) cfg p = .ok (stats, c') ∧
      stats.CPUSteal = F64.zero ∧ stats.NetUp = F64.zero ∧ stats.NetDown = F64.zero ∧
      c'.lastTime = p.now ∧
      c'.lastCPU = (match p.sysTimes with
        | .ok (t :: ts) => t :: ts
        | _ => []) ∧
      c'.lastNet = (match p.netCounters with
        | .ok (n :: ns) => n :: ns
        | _ => []) := by
  obtain ⟨h1, h2, h3⟩ := collectBase_rates hbase
  have hC : Collect (NewCollector now0) cfg p =
      .ok ((collectNet (collectCPU (NewCollector now0) p s0).2 p
              (collectCPU (NewCollector now0) p s0).1).1,
           { (collectNet (collectCPU (NewCollector now0) p s0).2 p
              (collectCPU (NewCollector now0) p s0).1).2 with lastTime := p.now }) := by
    unfold Collect
    rw [hbase]
  refine ⟨_, _, hC, ?_, ?_, ?_, rfl, ?_, ?_⟩
  · rw [(collectNet_cpu _ _ _).1]
    rcases collectCPU_steal (NewCollector now0) p s0 with h | ⟨t1, r1, _, _, hl, _, _⟩
    · rw [h, h1]
    · exact absurd hl (by simp [NewCollector])
  · rcases collectNet_rates (collectCPU (NewCollector now0) p s0).2 p
      (collectCPU (NewCollector now0) p s0).1 with h | ⟨n1, r1, _, _, hl, _⟩
    · rw [h.1, (collectCPU_net _ _ _).1, h2]
    · rw [(collectCPU_net _ _ _).2.2.1] at hl
      exact absurd hl (by simp [NewCollector])
  · rcases collectNet_rates (collectCPU (NewCollector now0) p s0).2 p
      (collectCPU (NewCollector now0) p s0).1 with h | ⟨n1, r1, _, _, hl, _⟩
    · rw [h.2, (collectCPU_net _ _ _).2.1, h3]
    · rw [(collectCPU_net _ _ _).2.2.1] at hl
      exact absurd hl (by simp [NewCollector])
  · show (collectNet _ p _).2.lastCPU = _
    rw [(collectNet_cpu _ _ _).2, collectCPU_lastCPU]
    rfl
  · show (collectNet _ p _).2.lastNet = _
    rw [collectNet_lastNet, (collectCPU_net _ _ _).2.2.1]
    rfl

/-- Witness of C9: a first call whose probes all succeed, with one CPU and one
network sample. -/
theorem C9_first_sample_zero_rates_witness :
    ∃ stats c', Collect (NewCollector 0) exampleConfig firstProbes = .ok (stats, c') ∧
      stats.CPUSteal = F64.zero ∧ stats.NetUp = F64.zero ∧ stats.NetDown = F64.zero ∧
      c'.lastTime = firstProbes.now ∧
      c'.lastCPU = (match firstProbes.sysTimes with
        | .ok (t :: ts) => t :: ts
        | _ => []) ∧
      c'.lastNet = (match firstProbes.netCounters with
        | .ok (n :: ns) => n :: ns
        | _ => []) :=
  C9_first_sample_zero_rates 0 exampleConfig firstProbes _ rfl

end Kiloa

/-! ## C3: counter reset and elapsed time -/

namespace Kiloa

theorem Collect_eq {c : Collector} {cfg : Config} {p : Probes} {s0 : SystemStats}
    (hbase : collectBase cfg p = .ok s0) :
    Collect c cfg p =
      .ok ((collectNet (collectCPU c p s0).2 p (collectCPU c p s0).1).1,
           { (collectNet (collectCPU c p s0).2 p (collectCPU c p s0).1).2 with
              lastTime := p.now }) := by
  unfold Collect
  rw [hbase]

theorem zero_lt_one_f64 : F64.zero < F64.fin 1 := by
  show F64.lt (F64.fin 0) (F64.fin 1)
  simp [F64.lt]

theorem round_one : F64.round 1 = F64.fin 1 := by
  simpa using F64.round_natCast 1 (by norm_num)

theorem Seconds_one_second : Seconds (timeSub 1000000000 0) = F64.fin 1 := by
  have ht : timeSub 1000000000 0 = 1000000000 := by
    norm_num [timeSub, minDuration, maxDuration]
  have hd : Int.tdiv 1000000000 Second = 1 := by decide
  have hm : Int.tmod 1000000000 Second = 0 := by decide
  have hne : (1000000000 : ℚ) ≠ 0 := by norm_num
  rw [ht, Seconds, hd, hm]
  simp only [F64.ofInt, Int.cast_one, Int.cast_zero, round_one, F64.round_zero, F64.div,
    if_neg hne, zero_div, F64.add, add_zero]

theorem subU64_reset : (((subU64 0 1048576 : ℕ) : ℤ) : ℚ) = 18446744073708503040 := by
  have h : subU64 0 1048576 = 18446744073708503040 := by norm_num [subU64]
  rw [h]
  norm_num

theorem ofInt_reset :
    F64.ofInt ((subU64 0 1048576 : ℕ) : ℤ) = F64.fin 18446744073708503040 := by
  rw [F64.ofInt, subU64_reset]
  exact F64.round_fix 9007199254740480 11 (by norm_num) (by norm_num) (by norm_num)
    (by norm_num)

theorem div_reset_1 :
    F64.div (F64.fin 18446744073708503040) (F64.fin 1024) = F64.fin 18014398509480960 := by
  have hne : (1024 : ℚ) ≠ 0 := by norm_num
  have h := F64.round_fix (q := 18446744073708503040 / 1024) 9007199254740480 1
    (by norm_num) (by norm_num) (by norm_num) (by norm_num)
  simp only [F64.div, if_neg hne, h]
  norm_num

theorem div_reset_2 :
    F64.div (F64.fin 18014398509480960) (F64.fin 1024) = F64.fin 17592186044415 := by
  have hne : (1024 : ℚ) ≠ 0 := by norm_num
  have h := F64.round_fix (q := 18014398509480960 / 1024) 17592186044415 0
    (by norm_num) (by norm_num) (by norm_num) (by norm_num)
  simp only [F64.div, if_neg hne, h]
  norm_num

theorem div_reset_3 :
    F64.div (F64.fin 17592186044415) (F64.fin 1) = F64.fin 17592186044415 := by
  have hne : (1 : ℚ) ≠ 0 := by norm_num
  have h := F64.round_fix (q := 17592186044415 / 1) 17592186044415 0
    (by norm_num) (by norm_num) (by norm_num) (by norm_num)
  simp only [F64.div, if_neg hne, h]
  norm_num

theorem netRate_reset : netRate 1048576 0 (F64.fin 1) = F64.fin 17592186044415 := by
  rw [netRate, ofInt_reset, div_reset_1, div_reset_2, div_reset_3]

/-- C3, counterexample: the previous sample has `BytesSent = 1048576`, the
current one, a second later, `BytesSent = 0` (a reset).  `Collect` reports
`NetUp = 17592186044415` MB/s, the wrapped difference `2 ^ 64 - 2 ^ 20` over
`2 ^ 20`, not `0`. -/
theorem C3_reset_counterexample :
    (0 : ℕ) < 1048576 ∧
    Except.map (fun r => r.1.NetUp) (Collect resetCollector exampleConfig resetProbes) =
      .ok (F64.fin 17592186044415) ∧
    F64.fin 17592186044415 ≠ F64.zero := by
  refine ⟨by norm_num, ?_, ?_⟩
  · rw [@Collect_eq resetCollector exampleConfig resetProbes _ rfl]
    simp only [Except.map, collectCPU, collectNet, resetProbes, resetCollector, okProbes,
      Seconds_one_second, if_pos zero_lt_one_f64, netRate_reset]
  · simp [F64.zero]

/-- C3, as the code has it: if the time elapsed since the previous call is
`<= 0`, `Collect` reports `NetUp = 0` and `NetDown = 0`, whatever the previous
and current byte counters are. -/
theorem C3_no_elapsed_time_zero_rates (c : Collector) (cfg : Config) (p : Probes)
    (s0 : SystemStats) (hbase : collectBase cfg p = .ok s0)
    (hd : timeSub p.now c.lastTime ≤ 0) :
    ∃ stats c', Collect c cfg p = .ok (stats, c') ∧
      stats.NetUp = F64.zero ∧ stats.NetDown = F64.zero := by
  obtain ⟨_, h2, h3⟩ := collectBase_rates hbase
  refine ⟨_, _, Collect_eq hbase, ?_, ?_⟩
  · rcases collectNet_rates (collectCPU c p s0).2 p (collectCPU c p s0).1 with
      h | ⟨_, _, _, _, _, _, hpos, _⟩
    · rw [h.1, (collectCPU_net _ _ _).1, h2]
    · rw [(collectCPU_net _ _ _).2.2.2] at hpos
      exact absurd hpos (Seconds_not_pos hd)
  · rcases collectNet_rates (collectCPU c p s0).2 p (collectCPU c p s0).1 with
      h | ⟨_, _, _, _, _, _, hpos, _⟩
    · rw [h.2, (collectCPU_net _ _ _).2.1, h3]
    · rw [(collectCPU_net _ _ _).2.2.2] at hpos
      exact absurd hpos (Seconds_not_pos hd)

/-- Witness of C3: a call at the very time of the previous one. -/
theorem C3_no_elapsed_time_zero_rates_witness :
    timeSub sameTimeProbes.now sameTimeCollector.lastTime ≤ 0 ∧
    ∃ stats c', Collect sameTimeCollector exampleConfig sameTimeProbes = .ok (stats, c') ∧
      stats.NetUp = F64.zero ∧ stats.NetDown = F64.zero :=
  ⟨by decide, C3_no_elapsed_time_zero_rates sameTimeCollector exampleConfig sameTimeProbes _ rfl
    (by decide)⟩

end Kiloa

/-! ## C4 and C5: sign and bound of the rates -/

namespace Kiloa

theorem collectCPU_steal_eq {c : Collector} {p : Probes} (s : SystemStats) {t1 t2 : TimesStat}
    {r1 r2 : List TimesStat} (h1 : c.lastCPU = t1 :: r1) (h2 : p.sysTimes = .ok (t2 :: r2)) :
    (collectCPU c p s).1.CPUSteal = cpuSteal t1 t2 := by
  unfold collectCPU
  rw [h2]
  simp only
  rw [h1]

theorem cpuSteal_nonneg {t1 t2 : TimesStat} {s : ℚ} (hs : diffSteal t1 t2 = F64.fin s)
    (h0 : 0 ≤ s) : F64.zero ≤ cpuSteal t1 t2 := by
  unfold cpuSteal
  by_cases hpos : F64.zero < diffTotal t1 t2
  · rw [if_pos hpos]
    exact F64.mul_hundred_nonneg (F64.div_fin_nonneg ⟨s, hs, h0⟩ hpos)
  · rw [if_neg hpos]
    exact F64.zero_le_zero

theorem ulp_hundred : F64.ulp 100 = (2 : ℚ) ^ ((6 : ℤ) - 52) :=
  F64.ulp_eq (by norm_num [abs_of_pos]) (by norm_num [abs_of_pos]) (by norm_num)

theorem cpuSteal_le_hundred {t1 t2 : TimesStat} {s : ℚ} (hs : diffSteal t1 t2 = F64.fin s)
    (h0 : 0 ≤ s) (hpos : F64.zero < diffTotal t1 t2)
    (hle : diffSteal t1 t2 ≤ diffTotal t1 t2) : cpuSteal t1 t2 ≤ F64.fin 100 := by
  unfold cpuSteal
  rw [if_pos hpos, hs]
  rw [hs] at hle
  rcases F64.pos_cases hpos with hT | ⟨t, hT, ht⟩
  · rw [hT]
    simp only [F64.div, F64.mul, zero_mul, F64.round_zero]
    show F64.le (F64.fin 0) (F64.fin 100)
    simp [F64.le]
  · rw [hT] at hle ⊢
    have hst : s ≤ t := hle
    have hq1 : s / t ≤ (2 : ℚ) ^ (0 : ℤ) := by
      rw [zpow_zero, div_le_one ht]
      exact hst
    obtain ⟨r, hr, hr0, hr1⟩ :=
      F64.round_le_two_zpow 0 (div_nonneg h0 ht.le) hq1 (by norm_num) (by norm_num)
    rw [zpow_zero] at hr1
    simp only [F64.div, if_neg ht.ne', hr, F64.mul]
    obtain ⟨r2, hr2, _, hr2b⟩ := F64.round_le_grid (q := r * 100) (K := 100) 7036874417766400
      (by positivity) (by linarith) (by rw [ulp_hundred]; norm_num)
      (by unfold F64.huge; norm_num)
    rw [hr2]
    exact hr2b

/-- C4, counterexample: the steal counter goes from 1 s to 0 s while user time
goes from 0 s to 2 s, so `diffTotal = 1 > 0` and `diffSteal = -1`; `Collect`
reports `CPUSteal = -100`. -/
theorem C4_negative_steal_counterexample :
    Except.map (fun r => r.1.CPUSteal) (Collect negCollector exampleConfig negProbes) =
      .ok (F64.fin (-100)) ∧
    ¬ (F64.zero ≤ F64.fin (-100)) := by
  have h1 : F64.round 1 = F64.fin 1 := round_one
  have h2 : F64.round 2 = F64.fin 2 := by simpa using F64.round_natCast 2 (by norm_num)
  have h01 : F64.add (F64.fin 0) (F64.fin 1) = F64.fin 1 := by
    simp only [F64.add, zero_add, h1]
  have hT1 : totalTime { zeroTimes with Steal := F64.fin 1 } = F64.fin 1 := by
    simp only [totalTime, zeroTimes, F64.zero_def, F64.add_zero_zero, h01]
  have hT2 : totalTime { zeroTimes with User := F64.fin 2 } = F64.fin 2 := by
    simp only [totalTime, zeroTimes, F64.zero_def, F64.add_fin_zero_of_round h2]
  have hdT : diffTotal { zeroTimes with Steal := F64.fin 1 } { zeroTimes with User := F64.fin 2 }
      = F64.fin 1 := by
    rw [diffTotal, hT1, hT2]
    simp only [F64.sub, F64.neg, F64.add]
    norm_num
    exact h1
  have hm1 : F64.round (-1) = F64.fin (-1) := by
    simpa using F64.round_fix (q := -1) (-1) 0 (by norm_num) (by norm_num) (by norm_num)
      (by norm_num)
  have hdS : diffSteal { zeroTimes with Steal := F64.fin 1 } { zeroTimes with User := F64.fin 2 }
      = F64.fin (-1) := by
    simp only [diffSteal, zeroTimes, F64.zero_def, F64.sub, F64.neg, F64.add, zero_add, hm1]
  have hm100 : F64.round (-100) = F64.fin (-100) := by
    simpa using F64.round_fix (q := -100) (-100) 0 (by norm_num) (by norm_num) (by norm_num)
      (by norm_num)
  have hcpu : cpuSteal { zeroTimes with Steal := F64.fin 1 } { zeroTimes with User := F64.fin 2 }
      = F64.fin (-100) := by
    have hne : (1 : ℚ) ≠ 0 := by norm_num
    rw [cpuSteal, hdT, if_pos zero_lt_one_f64, hdS]
    simp only [F64.div, if_neg hne, div_one, hm1, F64.mul]
    norm_num
    exact hm100
  refine ⟨?_, ?_⟩
  · rw [@Collect_eq negCollector exampleConfig negProbes _ rfl]
    simp only [Except.map, collectCPU, collectNet, negProbes, negCollector, okProbes, hcpu]
  · show ¬ F64.le (F64.fin 0) (F64.fin (-100))
    simp [F64.le]

theorem cpuSteal_of_not_pos {t1 t2 : TimesStat} (h : ¬ (F64.zero < diffTotal t1 t2)) :
    cpuSteal t1 t2 = F64.zero := by
  unfold cpuSteal
  rw [if_neg h]

theorem diffTotal_decreasing :
    diffTotal { zeroTimes with User := F64.fin 5, Steal := F64.fin 1 } zeroTimes =
      F64.fin (-6) := by
  have h5 : F64.round 5 = F64.fin 5 := by simpa using F64.round_natCast 5 (by norm_num)
  have h6 : F64.round 6 = F64.fin 6 := by simpa using F64.round_natCast 6 (by norm_num)
  have hm6 : F64.round (-6) = F64.fin (-6) := by
    simpa using F64.round_fix (q := -6) (-6) 0 (by norm_num) (by norm_num) (by norm_num)
      (by norm_num)
  have h51 : F64.add (F64.fin 5) (F64.fin 1) = F64.fin 6 := by
    simp only [F64.add]
    norm_num
    exact h6
  have hT1 : totalTime { zeroTimes with User := F64.fin 5, Steal := F64.fin 1 } = F64.fin 6 := by
    simp only [totalTime, zeroTimes, F64.zero_def, F64.add_fin_zero_of_round h5, h51]
  have hT2 : totalTime zeroTimes = F64.fin 0 := by
    simp only [totalTime, zeroTimes, F64.zero_def, F64.add_zero_zero]
  rw [diffTotal, hT1, hT2]
  simp only [F64.sub, F64.neg, F64.add, zero_add, hm6]

/-- C4, as the code has it: for every previous sample (present or absent) and
every current sample, `NetUp` and `NetDown` are `>= 0`; `CPUSteal` is `>= 0`
whenever no steal percentage is computed (no previous or no current CPU
sample, or `diffTotal` not `> 0`) and whenever the steal delta
`t2.Steal - t1.Steal` the code computes is a finite number `>= 0`. -/
theorem C4_rates_nonneg (c : Collector) (cfg : Config) (p : Probes) (s0 : SystemStats)
    (hbase : collectBase cfg p = .ok s0) :
    ∃ stats c', Collect c cfg p = .ok (stats, c') ∧
      F64.zero ≤ stats.NetUp ∧ F64.zero ≤ stats.NetDown ∧
      ((∀ t1 r1 t2 r2, c.lastCPU = t1 :: r1 → p.sysTimes = .ok (t2 :: r2) →
          ¬ (F64.zero < diffTotal t1 t2) ∨ ∃ s, diffSteal t1 t2 = F64.fin s ∧ 0 ≤ s) →
        F64.zero ≤ stats.CPUSteal) := by
  obtain ⟨h1, h2, h3⟩ := collectBase_rates hbase
  refine ⟨_, _, Collect_eq hbase, ?_, ?_, ?_⟩
  · rcases collectNet_rates (collectCPU c p s0).2 p (collectCPU c p s0).1 with
      h | ⟨_, _, _, _, _, _, hpos, hup, _⟩
    · rw [h.1, (collectCPU_net _ _ _).1, h2]
      exact F64.zero_le_zero
    · rw [hup]
      exact netRate_nonneg _ _ hpos
  · rcases collectNet_rates (collectCPU c p s0).2 p (collectCPU c p s0).1 with
      h | ⟨_, _, _, _, _, _, hpos, _, hdown⟩
    · rw [h.2, (collectCPU_net _ _ _).2.1, h3]
      exact F64.zero_le_zero
    · rw [hdown]
      exact netRate_nonneg _ _ hpos
  · intro hsteal
    rw [(collectNet_cpu _ _ _).1]
    rcases collectCPU_steal c p s0 with h | ⟨t1, r1, t2, r2, hl, hp, heq⟩
    · rw [h, h1]
      exact F64.zero_le_zero
    · rw [heq]
      rcases hsteal t1 r1 t2 r2 hl hp with hnp | ⟨s, hs, hs0⟩
      · rw [cpuSteal_of_not_pos hnp]
        exact F64.zero_le_zero
      · exact cpuSteal_nonneg hs hs0

/-- Witness of C4: both previous samples are present; every CPU bucket has
decreased (steal from 1 s to 0 s, `diffTotal = -6`), so no percentage is
computed and `CPUSteal` stays `0`, and the byte counters have grown over one
second. -/
theorem C4_rates_nonneg_witness :
    diffTotal { zeroTimes with User := F64.fin 5, Steal := F64.fin 1 } zeroTimes =
      F64.fin (-6) ∧
    ∃ stats c', Collect decreasingCollector exampleConfig decreasingProbes = .ok (stats, c') ∧
      F64.zero ≤ stats.NetUp ∧ F64.zero ≤ stats.NetDown ∧ F64.zero ≤ stats.CPUSteal := by
  refine ⟨diffTotal_decreasing, ?_⟩
  obtain ⟨stats, c', h, hu, hd, hs⟩ :=
    C4_rates_nonneg decreasingCollector exampleConfig decreasingProbes _ rfl
  refine ⟨stats, c', h, hu, hd, hs ?_⟩
  intro t1 r1 t2 r2 hprev hcur
  left
  have e1 : t1 = { zeroTimes with User := F64.fin 5, Steal := F64.fin 1 } := by
    have := (List.cons.inj hprev).1
    exact this.symm
  have e2 : t2 = zeroTimes := by
    have := (List.cons.inj (Except.ok.inj hcur)).1
    exact this.symm
  rw [e1, e2, diffTotal_decreasing]
  show ¬ F64.lt (F64.fin 0) (F64.fin (-6))
  simp [F64.lt]

/-- C5, counterexample: every bucket is non-negative and non-decreasing (idle
stays at 8 s, steal goes from 0 s to the `float64` nearest 0.1 s, the others
are 0) and the bucket deltas sum to 0.1 s `> 0`, yet `total2 = 8 + 0.1` is
rounded, `diffTotal` comes out below `diffSteal`, and `Collect` reports
`CPUSteal = 100.00000000000036`, above 100. -/
theorem C5_steal_above_hundred_counterexample :
    stealT1.Steal = F64.fin 0 ∧
    stealT2 = { stealT1 with Steal := F64.fin (3602879701896397 / 36028797018963968) } ∧
    Except.map (fun r => r.1.CPUSteal) (Collect stealCollector exampleConfig stealProbes) =
      .ok (F64.fin (7036874417766425 / 70368744177664)) ∧
    ¬ (F64.fin (7036874417766425 / 70368744177664) ≤ F64.fin 100) := by
  refine ⟨rfl, ?_, ?_, ?_⟩
  · simp only [stealT2, stealT1, F64.ofRat, F64.round_tenth]
  · rw [@Collect_eq stealCollector exampleConfig stealProbes _ rfl]
    simp only [Except.map, collectCPU, collectNet, stealProbes, stealCollector, okProbes,
      cpuSteal_steal]
  · show ¬ F64.le (F64.fin _) (F64.fin 100)
    simp only [F64.le]
    norm_num

/-- C5, as the code has it: for every pair of CPU samples for which the deltas
the code computes in `float64`, `diffSteal = t2.Steal - t1.Steal` and
`diffTotal = total2 - total1`, satisfy `diffTotal > 0` and
`0 <= diffSteal <= diffTotal` with `diffSteal` finite, `Collect` reports
`CPUSteal = (diffSteal / diffTotal) * 100` with `0 <= CPUSteal <= 100`. -/
theorem C5_steal_bounded (c : Collector) (cfg : Config) (p : Probes) (s0 : SystemStats)
    (t1 t2 : TimesStat) (r1 r2 : List TimesStat) (s : ℚ)
    (hbase : collectBase cfg p = .ok s0)
    (hprev : c.lastCPU = t1 :: r1) (hcur : p.sysTimes = .ok (t2 :: r2))
    (hs : diffSteal t1 t2 = F64.fin s) (hs0 : 0 ≤ s)
    (hpos : F64.zero < diffTotal t1 t2) (hle : diffSteal t1 t2 ≤ diffTotal t1 t2) :
    ∃ stats c', Collect c cfg p = .ok (stats, c') ∧
      stats.CPUSteal = F64.mul (F64.div (diffSteal t1 t2) (diffTotal t1 t2)) (F64.fin 100) ∧
      F64.zero ≤ stats.CPUSteal ∧ stats.CPUSteal ≤ F64.fin 100 := by
  have heq : (collectNet (collectCPU c p s0).2 p (collectCPU c p s0).1).1.CPUSteal =
      cpuSteal t1 t2 := by
    rw [(collectNet_cpu _ _ _).1, collectCPU_steal_eq s0 hprev hcur]
  refine ⟨_, _, Collect_eq hbase, ?_, ?_, ?_⟩
  · rw [heq, cpuSteal, if_pos hpos]
  · rw [heq]
    exact cpuSteal_nonneg hs hs0
  · rw [heq]
    exact cpuSteal_le_hundred hs hs0 hpos hle

theorem diffSteal_allSteal :
    diffSteal zeroTimes { zeroTimes with Steal := F64.fin 1 } = F64.fin 1 := by
  simp only [diffSteal, zeroTimes, F64.zero_def, F64.sub, F64.neg, F64.add, neg_zero, add_zero,
    round_one]

theorem diffTotal_allSteal :
    diffTotal zeroTimes { zeroTimes with Steal := F64.fin 1 } = F64.fin 1 := by
  have h01 : F64.add (F64.fin 0) (F64.fin 1) = F64.fin 1 := by
    simp only [F64.add, zero_add, round_one]
  have hT1 : totalTime zeroTimes = F64.fin 0 := by
    simp only [totalTime, zeroTimes, F64.zero_def, F64.add_zero_zero]
  have hT2 : totalTime { zeroTimes with Steal := F64.fin 1 } = F64.fin 1 := by
    simp only [totalTime, zeroTimes, F64.zero_def, F64.add_zero_zero, h01]
  rw [diffTotal, hT1, hT2]
  simp only [F64.sub, F64.neg, F64.add, neg_zero, add_zero, round_one]

/-- Witness of C5: from an all-zero sample to one second of steal, the steal
percentage is computed from `diffSteal = diffTotal = 1`. -/
theorem C5_steal_bounded_witness :
    diffSteal zeroTimes { zeroTimes with Steal := F64.fin 1 } = F64.fin 1 ∧
    F64.zero < diffTotal zeroTimes { zeroTimes with Steal := F64.fin 1 } ∧
    ∃ stats c', Collect allStealCollector exampleConfig allStealProbes = .ok (stats, c') ∧
      stats.CPUSteal =
        F64.mul (F64.div (diffSteal zeroTimes { zeroTimes with Steal := F64.fin 1 })
          (diffTotal zeroTimes { zeroTimes with Steal := F64.fin 1 })) (F64.fin 100) ∧
      F64.zero ≤ stats.CPUSteal ∧ stats.CPUSteal ≤ F64.fin 100 :=
  ⟨diffSteal_allSteal, by rw [diffTotal_allSteal]; exact zero_lt_one_f64,
    C5_steal_bounded allStealCollector exampleConfig allStealProbes _ zeroTimes
      { zeroTimes with Steal := F64.fin 1 } [] [] 1 rfl rfl rfl diffSteal_allSteal
      (by norm_num) (by rw [diffTotal_allSteal]; exact zero_lt_one_f64)
      (by rw [diffSteal_allSteal, diffTotal_allSteal]; exact le_refl (1 : ℚ))⟩

end Kiloa

/-! ## The `nodes` table -/

namespace Kiloa

theorem dbFirst_nil (id : String) : dbFirst [] id = none := rfl

theorem dbFirst_cons (r : Node) (db : DB) (id : String) :
    dbFirst (r :: db) id = if r.ID = id then some r else dbFirst db id := by
  unfold dbFirst
  by_cases h : r.ID = id
  · simp [List.find?, h]
  · have hb : (r.ID == id) = false := by simp [h]
    simp [List.find?, hb, h]

theorem dbFirst_append_none {db : DB} {id : String} (h : dbFirst db id = none) (r : Node) :
    dbFirst (db ++ [r]) id = if r.ID = id then some r else none := by
  induction db with
  | nil => simp [dbFirst_cons, dbFirst_nil]
  | cons a db ih =>
    rw [dbFirst_cons] at h
    by_cases ha : a.ID = id
    · rw [if_pos ha] at h
      exact absurd h (by simp)
    · rw [if_neg ha] at h
      rw [List.cons_append, dbFirst_cons, if_neg ha]
      exact ih h

theorem dbFirst_append_other (db : DB) {id : String} {r : Node} (h : r.ID ≠ id) :
    dbFirst (db ++ [r]) id = dbFirst db id := by
  induction db with
  | nil => simp [dbFirst_cons, dbFirst_nil, h]
  | cons a db ih =>
    rw [List.cons_append, dbFirst_cons, dbFirst_cons, ih]

theorem any_eq_true_of_first {db : DB} {id : String} {cur : Node}
    (h : dbFirst db id = some cur) : db.any (fun r => r.ID == id) = true := by
  induction db with
  | nil => exact absurd h (by simp [dbFirst_nil])
  | cons a db ih =>
    rw [dbFirst_cons] at h
    by_cases ha : a.ID = id
    · simp [ha]
    · rw [if_neg ha] at h
      simp [ih h]

theorem any_eq_false_of_first {db : DB} {id : String} (h : dbFirst db id = none) :
    db.any (fun r => r.ID == id) = false := by
  induction db with
  | nil => rfl
  | cons a db ih =>
    rw [dbFirst_cons] at h
    by_cases ha : a.ID = id
    · rw [if_pos ha] at h
      exact absurd h (by simp)
    · rw [if_neg ha] at h
      simp [ha, ih h]

theorem dbFirst_map_same (db : DB) (v : Node) (w : Node) (hw : w.ID = v.ID) {cur : Node}
    (h : dbFirst db v.ID = some cur) :
    dbFirst (db.map (fun r => if r.ID = v.ID then w else r)) v.ID = some w := by
  induction db with
  | nil => exact absurd h (by simp [dbFirst_nil])
  | cons a db ih =>
    rw [dbFirst_cons] at h
    by_cases ha : a.ID = v.ID
    · simp [List.map_cons, dbFirst_cons, ha, hw]
    · rw [if_neg ha] at h
      rw [List.map_cons, if_neg ha, dbFirst_cons, if_neg ha]
      exact ih h

theorem dbFirst_map_other (db : DB) (v : Node) (w : Node) (hw : w.ID = v.ID) {id : String}
    (hid : v.ID ≠ id) :
    dbFirst (db.map (fun r => if r.ID = v.ID then w else r)) id = dbFirst db id := by
  induction db with
  | nil => rfl
  | cons a db ih =>
    by_cases ha : a.ID = v.ID
    · have hne : a.ID ≠ id := by rw [ha]; exact hid
      have hwne : w.ID ≠ id := by rw [hw]; exact hid
      rw [List.map_cons, if_pos ha, dbFirst_cons, if_neg hwne, dbFirst_cons, if_neg hne]
      exact ih
    · rw [List.map_cons, if_neg ha, dbFirst_cons, dbFirst_cons, ih]

theorem createdRow_ID (v : Node) (t : ℤ) : (createdRow v t).ID = v.ID := rfl

theorem savedRow_ID (v : Node) (t : ℤ) : (savedRow v t).ID = v.ID := rfl

theorem dbFirst_dbCreate_other (db : DB) (v : Node) (t : ℤ) {id : String} (hid : v.ID ≠ id) :
    dbFirst (dbCreate db v t) id = dbFirst db id := by
  unfold dbCreate
  split
  · rfl
  · split
    · rfl
    · exact dbFirst_append_other db (by rw [createdRow_ID]; exact hid)

theorem dbFirst_dbCreate_new {db : DB} (v : Node) (t : ℤ) (hs : storable v)
    (h : dbFirst db v.ID = none) :
    dbFirst (dbCreate db v t) v.ID = some (createdRow v t) := by
  unfold dbCreate
  rw [if_neg (not_not.mpr hs), any_eq_false_of_first h]
  simp only [Bool.false_eq_true, if_false]
  rw [dbFirst_append_none h, if_pos (createdRow_ID v t)]

/-- A failed or refused insert leaves every lookup as it was when the key is
already in the table. -/
theorem dbCreate_of_present {db : DB} (v : Node) (t : ℤ) {cur : Node}
    (h : dbFirst db v.ID = some cur) : dbCreate db v t = db := by
  unfold dbCreate
  by_cases hs : storable v
  · rw [if_neg (not_not.mpr hs), any_eq_true_of_first h]
    simp
  · rw [if_pos hs]

theorem dbFirst_dbSave_other (db : DB) (v : Node) (t : ℤ) {id : String} (hid : v.ID ≠ id) :
    dbFirst (dbSave db v t) id = dbFirst db id := by
  unfold dbSave
  split
  · exact dbFirst_dbCreate_other db v t hid
  · split
    · rfl
    · split
      · exact dbFirst_map_other db v (savedRow v t) (savedRow_ID v t) hid
      · exact dbFirst_append_other db (by rw [createdRow_ID]; exact hid)

theorem dbFirst_dbSave_same {db : DB} (v : Node) (t : ℤ) {cur : Node} (hne : v.ID ≠ "")
    (hs : storable v) (h : dbFirst db v.ID = some cur) :
    dbFirst (dbSave db v t) v.ID = some (savedRow v t) := by
  unfold dbSave
  rw [if_neg hne, if_neg (not_not.mpr hs), any_eq_true_of_first h]
  simp only [if_true]
  exact dbFirst_map_same db v (savedRow v t) (savedRow_ID v t) h

theorem dbFirst_dbSave_created {db : DB} (v : Node) (t : ℤ) {cur : Node}
    (h : dbFirst db v.ID = some cur) (hc : v.CreatedAt = cur.CreatedAt) :
    ∃ cur', dbFirst (dbSave db v t) v.ID = some cur' ∧ cur'.CreatedAt = cur.CreatedAt := by
  by_cases hne : v.ID = ""
  · refine ⟨cur, ?_, rfl⟩
    unfold dbSave
    rw [if_pos hne, dbCreate_of_present v t h]
    exact h
  · by_cases hs : storable v
    · exact ⟨savedRow v t, dbFirst_dbSave_same v t hne hs h, hc⟩
    · refine ⟨cur, ?_, rfl⟩
      unfold dbSave
      rw [if_neg hne, if_pos hs]
      exact h

/-- One request leaves the `CreatedAt` of every stored record as it was. -/
theorem postReport_created (authToken : String) (db : DB) (token : String)
    (body : Except String Node) (now dbNow : ℤ) {id : String} {cur : Node}
    (h : dbFirst db id = some cur) :
    ∃ cur', dbFirst (postReport authToken db token body now dbNow).1 id = some cur' ∧
      cur'.CreatedAt = cur.CreatedAt := by
  unfold postReport
  by_cases ht : token ≠ authToken
  · rw [if_pos ht]
    exact ⟨cur, h, rfl⟩
  · rw [if_neg ht]
    cases body with
    | error e => exact ⟨cur, h, rfl⟩
    | ok input0 =>
      simp only
      by_cases hid : input0.ID = id
      · subst hid
        rw [h]
        simp only
        exact dbFirst_dbSave_created
          (v := { input0 with LastSeen := now, CreatedAt := cur.CreatedAt }) dbNow h rfl
      · cases hf : dbFirst db input0.ID with
        | none =>
          simp only
          rw [dbFirst_dbCreate_other db _ dbNow (show ({ input0 with LastSeen := now } : Node).ID ≠ id from hid)]
          exact ⟨cur, h, rfl⟩
        | some cn =>
          simp only
          rw [dbFirst_dbSave_other db _ dbNow
            (show ({ input0 with LastSeen := now, CreatedAt := cn.CreatedAt } : Node).ID ≠ id
              from hid)]
          exact ⟨cur, h, rfl⟩

end Kiloa

/-! ## C1 and C2: ingestion -/

namespace Kiloa

/-- An authorised report with a non-empty identity and `uint64` values the
driver accepts is stored: afterwards the record of that identity has the
report's fields and the handler's time as `LastSeen`. -/
theorem postReport_stored (authToken : String) (db : DB) (v : Node) (now dbNow : ℤ)
    (hne : v.ID ≠ "") (hs : storable v) :
    ∃ rec, dbFirst (postReport authToken db authToken (.ok v) now dbNow).1 v.ID = some rec ∧
      reportFields rec = reportFields v ∧ rec.LastSeen = now := by
  unfold postReport
  rw [if_neg (by simp)]
  simp only
  cases hf : dbFirst db v.ID with
  | none =>
    simp only
    exact ⟨_, @dbFirst_dbCreate_new db { v with LastSeen := now } dbNow hs hf, rfl, rfl⟩
  | some cur =>
    simp only
    exact ⟨_, @dbFirst_dbSave_same db
      { v with LastSeen := now, CreatedAt := cur.CreatedAt } dbNow cur hne hs hf, rfl, rfl⟩

/-- C1, counterexample: node "n1", the report of `t = 5` (`mem_used = 150`)
is ingested first and the report of `t = 0` (`mem_used = 100`) second; the
stored `mem_used` is then 100, the older report's. -/
theorem C1_out_of_order_counterexample :
    (dbFirst (postReports "secret" [] outOfOrder) "n1").map (fun r => r.MemUsed) = some 100 ∧
    reportT5.MemUsed = 150 := by
  refine ⟨?_, rfl⟩
  simp [postReports, outOfOrder, postReport, dbFirst, dbCreate, dbSave, createdRow, savedRow,
    storable, reportT0, reportT5, zeroNode]

/-- C1, as the code has it: the payload carries no timestamp and the handler
compares none; for every non-empty identity and every two reports with that
identity whose memory and disk values are below `2 ^ 63` (the values the SQL
driver writes), whenever they were produced, after both are ingested the
stored record has the report fields of the one ingested last: `r1` then `r2`
leaves the fields of `r2`, and `r2` then `r1` leaves the fields of `r1`. -/
theorem C1_last_ingested_wins (authToken : String) (db : DB) (r1 r2 : Node)
    (nowA dbNowA nowB dbNowB : ℤ) (hid : r1.ID = r2.ID) (hne : r1.ID ≠ "")
    (hs1 : storable r1) (hs2 : storable r2) :
    (∃ rec, dbFirst (postReport authToken
        (postReport authToken db authToken (.ok r1) nowA dbNowA).1
        authToken (.ok r2) nowB dbNowB).1 r1.ID = some rec ∧
      reportFields rec = reportFields r2) ∧
    (∃ rec, dbFirst (postReport authToken
        (postReport authToken db authToken (.ok r2) nowA dbNowA).1
        authToken (.ok r1) nowB dbNowB).1 r1.ID = some rec ∧
      reportFields rec = reportFields r1) := by
  constructor
  · obtain ⟨rec, h1, h2, _⟩ := postReport_stored authToken
      (postReport authToken db authToken (.ok r1) nowA dbNowA).1 r2 nowB dbNowB (hid ▸ hne) hs2
    rw [hid]
    exact ⟨rec, h1, h2⟩
  · obtain ⟨rec, h1, h2, _⟩ := postReport_stored authToken
      (postReport authToken db authToken (.ok r2) nowA dbNowA).1 r1 nowB dbNowB hne hs1
    exact ⟨rec, h1, h2⟩

/-- Witness of C1: the two reports of node "n1", in both orders. -/
theorem C1_last_ingested_wins_witness :
    storable reportT0 ∧ storable reportT5 ∧
    (∃ rec, dbFirst (postReport "secret"
        (postReport "secret" [] "secret" (.ok reportT0) 10 10).1
        "secret" (.ok reportT5) 11 11).1 reportT0.ID = some rec ∧
      reportFields rec = reportFields reportT5) ∧
    (∃ rec, dbFirst (postReport "secret"
        (postReport "secret" [] "secret" (.ok reportT5) 10 10).1
        "secret" (.ok reportT0) 11 11).1 reportT0.ID = some rec ∧
      reportFields rec = reportFields reportT0) :=
  ⟨by decide, by decide,
    C1_last_ingested_wins "secret" [] reportT0 reportT5 10 10 11 11 rfl (by decide)
      (by decide) (by decide)⟩

theorem postReports_created (authToken : String) (reqs : List Request) :
    ∀ (db : DB) (id : String) (cur : Node), dbFirst db id = some cur →
      ∃ cur', dbFirst (postReports authToken db reqs) id = some cur' ∧
        cur'.CreatedAt = cur.CreatedAt := by
  induction reqs with
  | nil => intro db id cur h; exact ⟨cur, h, rfl⟩
  | cons r reqs ih =>
    intro db id cur h
    obtain ⟨c1, h1, e1⟩ := postReport_created authToken db r.token r.body r.now r.dbNow h
    obtain ⟨c2, h2, e2⟩ := ih _ id c1 h1
    exact ⟨c2, h2, e2.trans e1⟩

/-- C2: when the table holds a record for an identity, ingesting a report
(with that identity or with another) leaves a record for it with the same
`CreatedAt`, and so does any sequence of requests; and when the table holds
no record for the identity of a report that the SQL driver accepts (memory and
disk values below `2 ^ 63`), the `CreatedAt` set by ingesting it (GORM's clock
reading, or the report's own `CreatedAt` if it carries a non-zero one) is still
the stored one after any sequence of further requests. -/
theorem C2_created_at_fixed (authToken : String) (db : DB) (id : String) (cur : Node)
    (h : dbFirst db id = some cur) (input : Node) (now dbNow : ℤ)
    (reqs : List Request) (db0 : DB) (first : Node) (h0 : dbFirst db0 first.ID = none)
    (hs : storable first) :
    (∃ cur', dbFirst (postReport authToken db authToken (.ok input) now dbNow).1 id
        = some cur' ∧ cur'.CreatedAt = cur.CreatedAt) ∧
    (∃ cur', dbFirst (postReports authToken db reqs) id = some cur' ∧
        cur'.CreatedAt = cur.CreatedAt) ∧
    (∃ cur', dbFirst (postReports authToken
        (postReport authToken db0 authToken (.ok first) now dbNow).1 reqs) first.ID
          = some cur' ∧
        cur'.CreatedAt = if first.CreatedAt = 0 then dbNow else first.CreatedAt) := by
  refine ⟨postReport_created authToken db authToken (.ok input) now dbNow h,
    postReports_created authToken reqs db id cur h, ?_⟩
  have hfirst : dbFirst (postReport authToken db0 authToken (.ok first) now dbNow).1 first.ID
      = some (createdRow { first with LastSeen := now } dbNow) := by
    unfold postReport
    rw [if_neg (by simp)]
    simp only
    rw [h0]
    exact @dbFirst_dbCreate_new db0 { first with LastSeen := now } dbNow hs h0
  exact postReports_created authToken reqs _ first.ID _ hfirst

/-- Witness of C2: a table holding the record of "n1", created at time 7,
receives the two reports of "n1"; and the empty table receives them. -/
theorem C2_created_at_fixed_witness :
    (∃ cur', dbFirst (postReport "secret" oneRecord "secret" (.ok reportT5) 10 10).1 "n1"
        = some cur' ∧ cur'.CreatedAt = 7) ∧
    (∃ cur', dbFirst (postReports "secret" oneRecord outOfOrder) "n1" = some cur' ∧
        cur'.CreatedAt = 7) ∧
    (∃ cur', dbFirst (postReports "secret"
        (postReport "secret" [] "secret" (.ok reportT0) 10 10).1 outOfOrder) reportT0.ID
          = some cur' ∧
        cur'.CreatedAt = if reportT0.CreatedAt = 0 then 10 else reportT0.CreatedAt) :=
  C2_created_at_fixed "secret" oneRecord "n1"
    { zeroNode with ID := "n1", CreatedAt := 7, LastSeen := 7 } (by decide) reportT5 10 10
    outOfOrder [] reportT0 rfl (by decide)

end Kiloa

/-! ## C6, C7 and C8: status and aggregation -/

namespace Kiloa

theorem aggregateFrom_append (now : ℤ) (t : Totals) (xs ys : List Node) :
    aggregateFrom now t (xs ++ ys) = aggregateFrom now (aggregateFrom now t xs) ys := by
  unfold aggregateFrom
  rw [List.foldl_append]

theorem aggregateFrom_processed (now : ℤ) (nodes : List Node) :
    ∀ t : Totals, (aggregateFrom now t nodes).processedNodes =
      t.processedNodes ++ nodes.map (fun m => { m with Status := deriveStatus now m }) := by
  induction nodes with
  | nil => intro t; simp [aggregateFrom]
  | cons a nodes ih =>
    intro t
    have := ih (aggregateStep now t a)
    simp only [aggregateFrom, List.foldl_cons] at this ⊢
    rw [this]
    simp [aggregateStep]

theorem aggregate_processed (now : ℤ) (nodes : List Node) :
    (aggregate now nodes).processedNodes =
      nodes.map (fun m => { m with Status := deriveStatus now m }) := by
  unfold aggregate
  simp only
  rw [aggregateFrom_processed]
  simp [Totals.init]

theorem foldl_addU64 (f : Node → ℕ) (nodes : List Node) :
    nodes.foldl (fun acc n => addU64 acc (f n)) 0 = (nodes.map f).sum % 2 ^ 64 := by
  induction nodes using List.reverseRecOn with
  | nil => rfl
  | append_singleton xs x ih =>
    rw [List.foldl_append, ih]
    simp only [List.foldl_cons, List.foldl_nil, addU64, List.map_append, List.map_cons,
      List.map_nil, List.sum_append, List.sum_cons, List.sum_nil, add_zero]
    rw [Nat.mod_add_mod]

/-- The totals after the loop, each as a fold of its own `+=`. -/
theorem aggregateFrom_fields (now : ℤ) (nodes : List Node) :
    ∀ t : Totals,
      (aggregateFrom now t nodes).totalMemUsed =
        nodes.foldl (fun acc n => addU64 acc n.MemUsed) t.totalMemUsed ∧
      (aggregateFrom now t nodes).totalMemTotal =
        nodes.foldl (fun acc n => addU64 acc n.MemTotal) t.totalMemTotal ∧
      (aggregateFrom now t nodes).totalDiskUsed =
        nodes.foldl (fun acc n => addU64 acc n.DiskUsed) t.totalDiskUsed ∧
      (aggregateFrom now t nodes).totalDiskTotal =
        nodes.foldl (fun acc n => addU64 acc n.DiskTotal) t.totalDiskTotal ∧
      (aggregateFrom now t nodes).totalNetUp =
        nodes.foldl (fun acc n => F64.add acc n.NetUp) t.totalNetUp ∧
      (aggregateFrom now t nodes).totalNetDown =
        nodes.foldl (fun acc n => F64.add acc n.NetDown) t.totalNetDown := by
  induction nodes with
  | nil => intro t; exact ⟨rfl, rfl, rfl, rfl, rfl, rfl⟩
  | cons a nodes ih =>
    intro t
    have := ih (aggregateStep now t a)
    simp only [aggregateFrom, List.foldl_cons] at this ⊢
    exact this

theorem aggregate_fields (now : ℤ) (nodes : List Node) :
    (aggregate now nodes).totalNodes = (nodes.length : ℤ) ∧
    (aggregate now nodes).totalMemUsed = (nodes.map (fun n => n.MemUsed)).sum % 2 ^ 64 ∧
    (aggregate now nodes).totalMemTotal = (nodes.map (fun n => n.MemTotal)).sum % 2 ^ 64 ∧
    (aggregate now nodes).totalDiskUsed = (nodes.map (fun n => n.DiskUsed)).sum % 2 ^ 64 ∧
    (aggregate now nodes).totalDiskTotal = (nodes.map (fun n => n.DiskTotal)).sum % 2 ^ 64 ∧
    (aggregate now nodes).totalNetUp =
      nodes.foldl (fun acc n => F64.add acc n.NetUp) F64.zero ∧
    (aggregate now nodes).totalNetDown =
      nodes.foldl (fun acc n => F64.add acc n.NetDown) F64.zero := by
  obtain ⟨h1, h2, h3, h4, h5, h6⟩ := aggregateFrom_fields now nodes Totals.init
  refine ⟨?_, ?_, ?_, ?_, ?_, ?_, ?_⟩
  · show ((aggregateFrom now Totals.init nodes).processedNodes.length : ℤ) = _
    rw [aggregateFrom_processed]
    simp [Totals.init]
  · show (aggregateFrom now Totals.init nodes).totalMemUsed = _
    rw [h1, ← foldl_addU64]; rfl
  · show (aggregateFrom now Totals.init nodes).totalMemTotal = _
    rw [h2, ← foldl_addU64]; rfl
  · show (aggregateFrom now Totals.init nodes).totalDiskUsed = _
    rw [h3, ← foldl_addU64]; rfl
  · show (aggregateFrom now Totals.init nodes).totalDiskTotal = _
    rw [h4, ← foldl_addU64]; rfl
  · exact h5
  · exact h6

/-- C7: `TotalNodes` is the length of the list and each of `MemUsed`,
`MemTotal`, `DiskUsed`, `DiskTotal` is the sum of the field over all nodes
modulo `2 ^ 64`, whatever status the nodes get; for the empty list the count
and every total are zero; and for a node last seen now and a node last seen
ten minutes ago, the first online and the second offline, `TotalNodes = 2` and
both memory values are in `MemUsed` and `MemTotal`. -/
theorem C7_aggregate_sums_every_node (now : ℤ) (nodes : List Node) (n1 n2 : Node) :
    ((aggregate now nodes).totalNodes = (nodes.length : ℤ) ∧
      (aggregate now nodes).totalMemUsed = (nodes.map (fun n => n.MemUsed)).sum % 2 ^ 64 ∧
      (aggregate now nodes).totalMemTotal = (nodes.map (fun n => n.MemTotal)).sum % 2 ^ 64 ∧
      (aggregate now nodes).totalDiskUsed = (nodes.map (fun n => n.DiskUsed)).sum % 2 ^ 64 ∧
      (aggregate now nodes).totalDiskTotal =
        (nodes.map (fun n => n.DiskTotal)).sum % 2 ^ 64) ∧
    aggregate now [] =
      { totalNodes := 0, totalMemUsed := 0, totalMemTotal := 0, totalDiskUsed := 0
        totalDiskTotal := 0, totalNetUp := F64.zero, totalNetDown := F64.zero
        processedNodes := [] } ∧
    ((aggregate now [{ n1 with LastSeen := now }, { n2 with LastSeen := now - 10 * Minute }]
        ).processedNodes.map (fun n => n.Status) = ["online", "offline"] ∧
      (aggregate now [{ n1 with LastSeen := now }, { n2 with LastSeen := now - 10 * Minute }]
        ).totalNodes = 2 ∧
      (aggregate now [{ n1 with LastSeen := now }, { n2 with LastSeen := now - 10 * Minute }]
        ).totalMemUsed = (n1.MemUsed + n2.MemUsed) % 2 ^ 64 ∧
      (aggregate now [{ n1 with LastSeen := now }, { n2 with LastSeen := now - 10 * Minute }]
        ).totalMemTotal = (n1.MemTotal + n2.MemTotal) % 2 ^ 64) := by
  obtain ⟨h0, h1, h2, h3, h4, _, _⟩ := aggregate_fields now nodes
  refine ⟨⟨h0, h1, h2, h3, h4⟩, rfl, ?_⟩
  obtain ⟨g0, g1, g2, _, _, _, _⟩ := aggregate_fields now
    [{ n1 with LastSeen := now }, { n2 with LastSeen := now - 10 * Minute }]
  refine ⟨?_, ?_, ?_, ?_⟩
  · rw [aggregate_processed]
    have ha : deriveStatus now { n1 with LastSeen := now } = "online" := by
      unfold deriveStatus timeSub
      simp only [Minute, Second, minDuration, maxDuration]
      rw [if_neg]
      split_ifs <;> omega
    have hb : deriveStatus now { n2 with LastSeen := now - 10 * Minute } = "offline" := by
      unfold deriveStatus timeSub
      simp only [Minute, Second, minDuration, maxDuration]
      rw [if_pos]
      split_ifs <;> omega
    simp only [List.map_cons, List.map_nil, ha, hb]
  · rw [g0]; rfl
  · rw [g1]; simp
  · rw [g2]; simp

/-- C8, as the code has it: the node count and the four `uint64` totals of a
concatenation are the sums (`uint64` addition for the totals) of those of the
two parts, and they are the same for every reordering of the nodes; the
throughput totals of `A ++ B` are the `float64` sum continued, node by node
over `B`, from the totals of `A`. -/
theorem C8_aggregate_concat (now : ℤ) (A B : List Node) :
    ((aggregate now (A ++ B)).totalNodes =
        (aggregate now A).totalNodes + (aggregate now B).totalNodes ∧
      (aggregate now (A ++ B)).totalMemUsed =
        addU64 (aggregate now A).totalMemUsed (aggregate now B).totalMemUsed ∧
      (aggregate now (A ++ B)).totalMemTotal =
        addU64 (aggregate now A).totalMemTotal (aggregate now B).totalMemTotal ∧
      (aggregate now (A ++ B)).totalDiskUsed =
        addU64 (aggregate now A).totalDiskUsed (aggregate now B).totalDiskUsed ∧
      (aggregate now (A ++ B)).totalDiskTotal =
        addU64 (aggregate now A).totalDiskTotal (aggregate now B).totalDiskTotal) ∧
    ((aggregate now (A ++ B)).totalNetUp =
        B.foldl (fun acc n => F64.add acc n.NetUp) (aggregate now A).totalNetUp ∧
      (aggregate now (A ++ B)).totalNetDown =
        B.foldl (fun acc n => F64.add acc n.NetDown) (aggregate now A).totalNetDown) ∧
    (∀ C : List Node, List.Perm (A ++ B) C →
      (aggregate now C).totalNodes = (aggregate now (A ++ B)).totalNodes ∧
      (aggregate now C).totalMemUsed = (aggregate now (A ++ B)).totalMemUsed ∧
      (aggregate now C).totalMemTotal = (aggregate now (A ++ B)).totalMemTotal ∧
      (aggregate now C).totalDiskUsed = (aggregate now (A ++ B)).totalDiskUsed ∧
      (aggregate now C).totalDiskTotal = (aggregate now (A ++ B)).totalDiskTotal) := by
  obtain ⟨a0, a1, a2, a3, a4, a5, a6⟩ := aggregate_fields now A
  obtain ⟨b0, b1, b2, b3, b4, _, _⟩ := aggregate_fields now B
  obtain ⟨c0, c1, c2, c3, c4, c5, c6⟩ := aggregate_fields now (A ++ B)
  refine ⟨⟨?_, ?_, ?_, ?_, ?_⟩, ⟨?_, ?_⟩, ?_⟩
  · rw [c0, a0, b0]; simp
  · rw [c1, a1, b1, addU64, List.map_append, List.sum_append, Nat.add_mod]
  · rw [c2, a2, b2, addU64, List.map_append, List.sum_append, Nat.add_mod]
  · rw [c3, a3, b3, addU64, List.map_append, List.sum_append, Nat.add_mod]
  · rw [c4, a4, b4, addU64, List.map_append, List.sum_append, Nat.add_mod]
  · rw [c5, a5, List.foldl_append]
  · rw [c6, a6, List.foldl_append]
  · intro C hperm
    obtain ⟨d0, d1, d2, d3, d4, _, _⟩ := aggregate_fields now C
    refine ⟨?_, ?_, ?_, ?_, ?_⟩
    · rw [d0, c0, hperm.length_eq]
    · rw [d1, c1, (hperm.map _).sum_eq]
    · rw [d2, c2, (hperm.map _).sum_eq]
    · rw [d3, c3, (hperm.map _).sum_eq]
    · rw [d4, c4, (hperm.map _).sum_eq]

/-- C6: the derived status is "offline" if and only if `now - LastSeen` exceeds
two minutes, and "online" otherwise; a node last seen 119 s ago is online, one
last seen 121 s ago is offline, and one last seen exactly 120 s ago is online.
The `GET /` handler gives every node this status. -/
theorem C6_status_threshold (now : ℤ) (n : Node) (nodes : List Node) :
    (deriveStatus now n = "offline" ↔ 2 * Minute < now - n.LastSeen) ∧
    (deriveStatus now n = "online" ↔ ¬ (2 * Minute < now - n.LastSeen)) ∧
    deriveStatus now { n with LastSeen := now - 119 * Second } = "online" ∧
    deriveStatus now { n with LastSeen := now - 121 * Second } = "offline" ∧
    deriveStatus now { n with LastSeen := now - 120 * Second } = "online" ∧
    (aggregate now nodes).processedNodes =
      nodes.map (fun m => { m with Status := deriveStatus now m }) := by
  have hiff : ∀ m : Node, (2 * Minute < timeSub now m.LastSeen) ↔ 2 * Minute < now - m.LastSeen := by
    intro m
    unfold timeSub
    simp only [Minute, Second, minDuration, maxDuration]
    split_ifs <;> omega
  have hne : ("offline" : String) ≠ "online" := by decide
  refine ⟨?_, ?_, ?_, ?_, ?_, ?_⟩
  · unfold deriveStatus
    rw [← hiff n]
    by_cases hc : 2 * Minute < timeSub now n.LastSeen
    · simp [hc]
    · simp [hc, hne.symm]
  · unfold deriveStatus
    rw [← hiff n]
    by_cases hc : 2 * Minute < timeSub now n.LastSeen
    · simp [hc, hne]
    · simp [hc]
  · unfold deriveStatus
    rw [if_neg]
    rw [hiff]
    simp only [Minute, Second]
    omega
  · unfold deriveStatus
    rw [if_pos]
    rw [hiff]
    simp only [Minute, Second]
    omega
  · unfold deriveStatus
    rw [if_neg]
    rw [hiff]
    simp only [Minute, Second]
    omega
  · exact aggregate_processed now nodes

theorem round_fifth : F64.round (1 / 5) = F64.fin (3602879701896397 / 18014398509481984) := by
  have h := F64.round_eval (q := 1 / 5) (-3) 7205759403792794 (by norm_num [abs_of_pos])
    (by norm_num [abs_of_pos]) (by norm_num) (by norm_num [F64.roundEven])
    (by norm_num [F64.huge, abs_of_pos])
  rw [h]
  norm_num

theorem round_three_tenths :
    F64.round (3 / 10) = F64.fin (5404319552844595 / 18014398509481984) := by
  have h := F64.round_eval (q := 3 / 10) (-2) 5404319552844595 (by norm_num [abs_of_pos])
    (by norm_num [abs_of_pos]) (by norm_num) (by norm_num [F64.roundEven])
    (by norm_num [F64.huge, abs_of_pos])
  rw [h]
  norm_num

theorem add_zero_tenth :
    F64.add (F64.fin 0) (F64.fin (3602879701896397 / 36028797018963968)) =
      F64.fin (3602879701896397 / 36028797018963968) := by
  have h := F64.round_fix (q := 0 + 3602879701896397 / 36028797018963968) 3602879701896397
    (-55) (by norm_num) (by norm_num) (by norm_num) (by norm_num)
  simp only [F64.add, h]
  norm_num

theorem add_zero_fifth :
    F64.add (F64.fin 0) (F64.fin (3602879701896397 / 18014398509481984)) =
      F64.fin (3602879701896397 / 18014398509481984) := by
  have h := F64.round_fix (q := 0 + 3602879701896397 / 18014398509481984) 3602879701896397
    (-54) (by norm_num) (by norm_num) (by norm_num) (by norm_num)
  simp only [F64.add, h]
  norm_num

theorem add_tenth_fifth :
    F64.add (F64.fin (3602879701896397 / 36028797018963968))
      (F64.fin (3602879701896397 / 18014398509481984)) =
      F64.fin (1351079888211149 / 4503599627370496) := by
  have h := F64.round_eval
    (q := 3602879701896397 / 36028797018963968 + 3602879701896397 / 18014398509481984) (-2)
    5404319552844596 (by norm_num [abs_of_pos]) (by norm_num [abs_of_pos]) (by norm_num)
    (by norm_num [F64.roundEven]) (by norm_num [F64.huge, abs_of_pos])
  simp only [F64.add, h]
  norm_num

theorem add_sum_three_tenths :
    F64.add (F64.fin (1351079888211149 / 4503599627370496))
      (F64.fin (5404319552844595 / 18014398509481984)) =
      F64.fin (1351079888211149 / 2251799813685248) := by
  have h := F64.round_eval
    (q := 1351079888211149 / 4503599627370496 + 5404319552844595 / 18014398509481984) (-1)
    5404319552844596 (by norm_num [abs_of_pos]) (by norm_num [abs_of_pos]) (by norm_num)
    (by norm_num [F64.roundEven]) (by norm_num [F64.huge, abs_of_pos])
  simp only [F64.add, h]
  norm_num

theorem add_fifth_three_tenths :
    F64.add (F64.fin (3602879701896397 / 18014398509481984))
      (F64.fin (5404319552844595 / 18014398509481984)) = F64.fin (1 / 2) := by
  have h := F64.round_eval
    (q := 3602879701896397 / 18014398509481984 + 5404319552844595 / 18014398509481984) (-1)
    4503599627370496 (by norm_num [abs_of_pos]) (by norm_num [abs_of_pos]) (by norm_num)
    (by norm_num [F64.roundEven]) (by norm_num [F64.huge, abs_of_pos])
  simp only [F64.add, h]
  norm_num

theorem add_tenth_half :
    F64.add (F64.fin (3602879701896397 / 36028797018963968)) (F64.fin (1 / 2)) =
      F64.fin (5404319552844595 / 9007199254740992) := by
  have h := F64.round_eval (q := 3602879701896397 / 36028797018963968 + 1 / 2) (-1)
    5404319552844595 (by norm_num [abs_of_pos]) (by norm_num [abs_of_pos]) (by norm_num)
    (by norm_num [F64.roundEven]) (by norm_num [F64.huge, abs_of_pos])
  simp only [F64.add, h]
  norm_num

theorem netUp_A : (aggregate 0 [nodeA]).totalNetUp =
    F64.fin (3602879701896397 / 36028797018963968) := by
  rw [(aggregate_fields 0 [nodeA]).2.2.2.2.2.1]
  simp only [List.foldl_cons, List.foldl_nil, nodeA, F64.zero_def, F64.ofRat, F64.round_tenth,
    add_zero_tenth]

theorem netUp_BC : (aggregate 0 [nodeB, nodeC]).totalNetUp = F64.fin (1 / 2) := by
  rw [(aggregate_fields 0 [nodeB, nodeC]).2.2.2.2.2.1]
  simp only [List.foldl_cons, List.foldl_nil, nodeB, nodeC, F64.zero_def, F64.ofRat,
    round_fifth, round_three_tenths, add_zero_fifth, add_fifth_three_tenths]

theorem netUp_ABC : (aggregate 0 ([nodeA] ++ [nodeB, nodeC])).totalNetUp =
    F64.fin (1351079888211149 / 2251799813685248) := by
  rw [(aggregate_fields 0 ([nodeA] ++ [nodeB, nodeC])).2.2.2.2.2.1]
  simp only [List.singleton_append, List.foldl_cons, List.foldl_nil, nodeA, nodeB, nodeC,
    F64.zero_def, F64.ofRat, F64.round_tenth, round_fifth, round_three_tenths, add_zero_tenth,
    add_tenth_fifth, add_sum_three_tenths]

/-- C8, counterexample: three nodes with distinct identities and throughputs
0.1, 0.2 and 0.3 MB/s, `A` the first and `B` the other two.  The aggregate of
`A ++ B` has `NetUp = (0.1 + 0.2) + 0.3 = 0.6000000000000001`, while the sum of
the aggregates of `A` and of `B` is `0.1 + (0.2 + 0.3) = 0.6`. -/
theorem C8_throughput_counterexample :
    (aggregate 0 ([nodeA] ++ [nodeB, nodeC])).totalNetUp =
      F64.fin (1351079888211149 / 2251799813685248) ∧
    F64.add (aggregate 0 [nodeA]).totalNetUp (aggregate 0 [nodeB, nodeC]).totalNetUp =
      F64.fin (5404319552844595 / 9007199254740992) ∧
    (aggregate 0 ([nodeA] ++ [nodeB, nodeC])).totalNetUp ≠
      F64.add (aggregate 0 [nodeA]).totalNetUp (aggregate 0 [nodeB, nodeC]).totalNetUp := by
  have h2 : F64.add (aggregate 0 [nodeA]).totalNetUp (aggregate 0 [nodeB, nodeC]).totalNetUp =
      F64.fin (5404319552844595 / 9007199254740992) := by
    rw [netUp_A, netUp_BC, add_tenth_half]
  refine ⟨netUp_ABC, h2, ?_⟩
  rw [netUp_ABC, h2]
  intro h
  have h3 := F64.fin.inj h
  norm_num at h3

end Kiloa

/-! ## C10: `formatBytes` -/

namespace Kiloa

theorem pow1024_exp_le {k : ℕ} (h : 1024 ^ k < 2 ^ 64) : k ≤ 6 := by
  by_contra hk
  have h7 : 7 ≤ k := by omega
  have : 1024 ^ 7 ≤ 1024 ^ k := Nat.pow_le_pow_right (by norm_num) h7
  have h70 : (2 : ℕ) ^ 64 < 1024 ^ 7 := by norm_num
  omega

theorem pow1024_le {k : ℕ} (hk : k ≤ 6) : (1024 : ℤ) ^ k ≤ 2 ^ 60 := by
  have : (1024 : ℤ) ^ k ≤ 1024 ^ 6 := pow_le_pow_right₀ (by norm_num) hk
  have h60 : (1024 : ℤ) ^ 6 = 2 ^ 60 := by norm_num
  omega

theorem wrapInt64_of_small {x : ℤ} (h0 : 0 ≤ x) (h : x ≤ 2 ^ 60) : wrapInt64 x = x := by
  unfold wrapInt64
  omega

/-- The loop of `formatBytes`, entered with `div = 1024 ^ (exp + 1)` and
`n = b / div >= 1`, ends with `div = 1024 ^ (exp + 1)` for the final `exp`,
`exp <= 5` and `div <= b < 1024 * div`; no multiplication wraps. -/
theorem formatBytesLoop_spec (b : ℕ) (hb : b < 2 ^ 64) :
    ∀ (n e : ℕ), n = b / 1024 ^ (e + 1) → 1 ≤ n →
      (formatBytesLoop n ((1024 : ℤ) ^ (e + 1)) e).1 =
        (1024 : ℤ) ^ ((formatBytesLoop n ((1024 : ℤ) ^ (e + 1)) e).2 + 1) ∧
      (formatBytesLoop n ((1024 : ℤ) ^ (e + 1)) e).2 ≤ 5 ∧
      1024 ^ ((formatBytesLoop n ((1024 : ℤ) ^ (e + 1)) e).2 + 1) ≤ b ∧
      b < 1024 * 1024 ^ ((formatBytesLoop n ((1024 : ℤ) ^ (e + 1)) e).2 + 1) := by
  intro n
  induction n using Nat.strong_induction_on with
  | _ n ih =>
    intro e hn h1
    have hdpos : 0 < 1024 ^ (e + 1) := by positivity
    have hdle : 1024 ^ (e + 1) ≤ b := by
      by_contra hlt
      rw [Nat.div_eq_of_lt (not_le.mp hlt)] at hn
      omega
    rw [formatBytesLoop]
    by_cases hge : 1024 ≤ n
    · rw [if_pos hge]
      have hb2 : 1024 ^ (e + 2) ≤ b := by
        have h2 : 1024 * 1024 ^ (e + 1) ≤ b := by
          have := (Nat.le_div_iff_mul_le hdpos).mp (hn ▸ hge)
          simpa [Nat.mul_comm] using this
        rw [pow_succ, Nat.mul_comm]
        exact h2
      have hk : e + 2 ≤ 6 := pow1024_exp_le (lt_of_le_of_lt hb2 hb)
      have hw : wrapInt64 ((1024 : ℤ) ^ (e + 1) * 1024) = (1024 : ℤ) ^ (e + 1 + 1) := by
        rw [← pow_succ]
        exact wrapInt64_of_small (by positivity) (pow1024_le hk)
      rw [hw]
      apply ih (n / 1024) (Nat.div_lt_self (by omega) (by norm_num)) (e + 1)
      · rw [hn, Nat.div_div_eq_div_mul, ← pow_succ]
      · exact (Nat.le_div_iff_mul_le (by norm_num)).mpr (by omega)
    · rw [if_neg hge]
      simp only
      have hk : e + 1 ≤ 6 := pow1024_exp_le (lt_of_le_of_lt hdle hb)
      refine ⟨trivial, by omega, hdle, ?_⟩
      have hlt : b / 1024 ^ (e + 1) < 1024 := by omega
      have := (Nat.div_lt_iff_lt_mul hdpos).mp hlt
      simpa [Nat.mul_comm] using this

/-- A rounded value is at least every power of two below the exact one. -/
theorem le_round_two_zpow {q : ℚ} (k : ℤ) (hq : (2 : ℚ) ^ k ≤ q) (hk : -1022 ≤ k) :
    (2 : ℚ) ^ k ≤ F64.roundEven (q / F64.ulp q) * F64.ulp q := by
  have hpos : 0 < q := lt_of_lt_of_le (F64.two_zpow_pos k) hq
  have habs : |q| = q := abs_of_pos hpos
  have hlog : k ≤ Int.log 2 |q| := by
    rw [habs]
    exact F64.le_log_of_zpow_le hpos hq
  have hu : F64.ulp q = (2 : ℚ) ^ (Int.log 2 |q| - 52) := by
    unfold F64.ulp
    rw [max_eq_left (by omega)]
  have hle : (2 : ℚ) ^ (Int.log 2 |q|) ≤ q := by
    have := F64.zpow_log_le (abs_pos.mpr hpos.ne')
    rw [habs] at this ⊢
    exact this
  have hsplit : ((2 ^ 52 : ℤ) : ℚ) * (2 : ℚ) ^ (Int.log 2 |q| - 52) =
      (2 : ℚ) ^ (Int.log 2 |q|) := by
    have h52 : ((2 ^ 52 : ℤ) : ℚ) = (2 : ℚ) ^ (52 : ℤ) := by norm_num
    rw [h52, ← zpow_add₀ (by norm_num : (2 : ℚ) ≠ 0)]
    congr 1
    omega
  have h1 : ((2 ^ 52 : ℤ) : ℚ) ≤ q / F64.ulp q := by
    rw [le_div_iff₀ (F64.ulp_pos q), hu, hsplit]
    exact hle
  have h2 : ((2 ^ 52 : ℤ) : ℚ) ≤ (F64.roundEven (q / F64.ulp q) : ℚ) := by
    exact_mod_cast F64.le_roundEven h1
  calc (2 : ℚ) ^ k ≤ (2 : ℚ) ^ (Int.log 2 |q|) := zpow_le_zpow_right₀ (by norm_num) hlog
    _ = ((2 ^ 52 : ℤ) : ℚ) * F64.ulp q := by rw [hu, hsplit]
    _ ≤ (F64.roundEven (q / F64.ulp q) : ℚ) * F64.ulp q :=
        mul_le_mul_of_nonneg_right h2 (F64.ulp_pos q).le

/-- An exact result between two powers of two rounds to a finite value between
them. -/
theorem round_between {q : ℚ} (k j : ℤ) (h1 : (2 : ℚ) ^ k ≤ q) (h2 : q ≤ (2 : ℚ) ^ j)
    (hk : -1022 ≤ k) (hj : j < 1024) :
    ∃ r, F64.round q = F64.fin r ∧ (2 : ℚ) ^ k ≤ r ∧ r ≤ (2 : ℚ) ^ j := by
  have hq0 : 0 ≤ q := (F64.two_zpow_pos k).le.trans h1
  have hkj : k ≤ j := by
    by_contra hcon
    have : (2 : ℚ) ^ j < (2 : ℚ) ^ k := zpow_lt_zpow_right₀ (by norm_num) (by omega)
    linarith
  obtain ⟨r, hr, _, hr2⟩ := F64.round_le_two_zpow j hq0 h2 (by omega) hj
  refine ⟨r, hr, ?_, hr2⟩
  have hlow := le_round_two_zpow k h1 hk
  rcases F64.round_cases q with ⟨hp, _⟩ | ⟨hn, _⟩ | ⟨hf, _, _⟩
  · rw [hp] at hr
    exact absurd hr (by simp)
  · rw [hn] at hr
    exact absurd hr (by simp)
  · rw [hf] at hr
    rw [← F64.fin.inj hr]
    exact hlow

/-- The `float64` mantissa of `formatBytes`: for `div = 1024 ^ (exp + 1)` with
`exp <= 5` and `div <= b <= 1024 * div`, the quotient
`float64(b) / float64(div)` is a finite value between 1 and 1024. -/
theorem mantissa_between (b : ℕ) (e : ℕ) (he : e ≤ 5) (hle : 1024 ^ (e + 1) ≤ b)
    (hlt : b < 1024 * 1024 ^ (e + 1)) :
    ∃ m : ℚ, F64.div (F64.ofInt b) (F64.ofInt ((1024 : ℤ) ^ (e + 1))) = F64.fin m ∧
      1 ≤ m ∧ m ≤ 1024 := by
  have hK : ((1024 : ℚ)) ^ (e + 1) = (2 : ℚ) ^ ((10 * (e + 1) : ℕ) : ℤ) := by
    rw [zpow_natCast, pow_mul]
    norm_num
  have hKpos : (0 : ℚ) < (2 : ℚ) ^ ((10 * (e + 1) : ℕ) : ℤ) := F64.two_zpow_pos _
  -- the divisor is a power of two, hence exact
  have hdiv : F64.ofInt ((1024 : ℤ) ^ (e + 1)) = F64.fin ((2 : ℚ) ^ ((10 * (e + 1) : ℕ) : ℤ)) := by
    unfold F64.ofInt
    have h := F64.round_dyadic 1 ((10 * (e + 1) : ℕ) : ℤ) (by norm_num) (by omega)
      (by push_cast; omega)
    simp only [Int.cast_one, one_mul] at h
    push_cast
    rw [hK]
    exact h
  -- the dividend rounds to a value between `div` and `1024 * div`
  have hb1 : (2 : ℚ) ^ ((10 * (e + 1) : ℕ) : ℤ) ≤ ((b : ℤ) : ℚ) := by
    rw [← hK]
    have : ((1024 ^ (e + 1) : ℕ) : ℚ) ≤ (b : ℚ) := by exact_mod_cast hle
    push_cast at this ⊢
    exact this
  have hb2 : ((b : ℤ) : ℚ) ≤ (2 : ℚ) ^ (((10 * (e + 1) : ℕ) : ℤ) + 10) := by
    rw [zpow_add₀ (by norm_num : (2 : ℚ) ≠ 0), ← hK]
    have : (b : ℚ) ≤ ((1024 * 1024 ^ (e + 1) : ℕ) : ℚ) := by exact_mod_cast hlt.le
    push_cast at this ⊢
    have h10 : (2 : ℚ) ^ (10 : ℤ) = 1024 := by norm_num
    rw [h10]
    linarith
  obtain ⟨B, hB, hB1, hB2⟩ := round_between ((10 * (e + 1) : ℕ) : ℤ)
    (((10 * (e + 1) : ℕ) : ℤ) + 10) hb1 hb2 (by omega) (by push_cast; omega)
  have hnum : F64.ofInt (b : ℤ) = F64.fin B := hB
  rw [hnum, hdiv]
  simp only [F64.div, if_neg hKpos.ne']
  have hq1 : (2 : ℚ) ^ (0 : ℤ) ≤ B / (2 : ℚ) ^ ((10 * (e + 1) : ℕ) : ℤ) := by
    rw [zpow_zero, le_div_iff₀ hKpos, one_mul]
    exact hB1
  have hq2 : B / (2 : ℚ) ^ ((10 * (e + 1) : ℕ) : ℤ) ≤ (2 : ℚ) ^ (10 : ℤ) := by
    rw [div_le_iff₀ hKpos, ← zpow_add₀ (by norm_num : (2 : ℚ) ≠ 0), add_comm]
    exact hB2
  obtain ⟨m, hm, hm1, hm2⟩ := round_between 0 10 hq1 hq2 (by norm_num) (by norm_num)
  refine ⟨m, hm, ?_, ?_⟩
  · simpa using hm1
  · have h10 : (2 : ℚ) ^ (10 : ℤ) = 1024 := by norm_num
    rw [h10] at hm2
    exact hm2

/-- Go `%.1f` of a finite value between 1 and 1024: the tenths `t`, between 10
and 10240, printed as `t / 10`, a point and `t % 10`. -/
theorem fmtFixed1_between {m : ℚ} (h1 : 1 ≤ m) (h2 : m ≤ 1024) :
    ∃ t : ℕ, (t : ℤ) = F64.roundEven (m * 10) ∧ 10 ≤ t ∧ t ≤ 10240 ∧
      fmtFixed1 (F64.fin m) = toString (t / 10) ++ "." ++ toString (t % 10) := by
  have hlo : (10 : ℤ) ≤ F64.roundEven (m * 10) :=
    F64.le_roundEven (by push_cast; linarith)
  have hhi : F64.roundEven (m * 10) ≤ (10240 : ℤ) :=
    F64.roundEven_le (by push_cast; linarith)
  refine ⟨(F64.roundEven (m * 10)).toNat, Int.toNat_of_nonneg (by omega), by omega, by omega, ?_⟩
  have hneg : ¬ m < 0 := by linarith
  simp only [fmtFixed1, abs_of_pos (lt_of_lt_of_le one_pos h1), if_neg hneg, String.empty_append]

theorem formatBytesLoop_small (n : ℕ) (d : ℤ) (e : ℕ) (h : n < 1024) :
    formatBytesLoop n d e = (d, e) := by
  rw [formatBytesLoop, if_neg (by omega)]

theorem formatBytesLoop_step (n : ℕ) (d : ℤ) (e : ℕ) (h : 1024 ≤ n) :
    formatBytesLoop n d e = formatBytesLoop (n / 1024) (wrapInt64 (d * 1024)) (e + 1) := by
  rw [formatBytesLoop, if_pos h]

theorem formatBytes_1048575 : formatBytes 1048575 = some "1024.0 K" := by
  have hloop : formatBytesLoop (1048575 / 1024) 1024 0 = (1024, 0) :=
    formatBytesLoop_small _ _ _ (by norm_num)
  have hb : F64.ofInt ((1048575 : ℕ) : ℤ) = F64.fin 1048575 := by
    simpa [F64.ofInt] using F64.round_natCast 1048575 (by norm_num)
  have hd : F64.ofInt 1024 = F64.fin 1024 := by
    simpa [F64.ofInt] using F64.round_natCast 1024 (by norm_num)
  have hq : F64.div (F64.fin 1048575) (F64.fin 1024) = F64.fin (1048575 / 1024) := by
    have hne : (1024 : ℚ) ≠ 0 := by norm_num
    have h := F64.round_fix (q := 1048575 / 1024) 1048575 (-10) (by norm_num) (by norm_num)
      (by norm_num) (by norm_num)
    simp only [F64.div, if_neg hne, h]
  have ht : (F64.roundEven (|(1048575 / 1024 : ℚ)| * 10)).toNat = 10240 := by
    have : F64.roundEven (|(1048575 / 1024 : ℚ)| * 10) = 10240 := by
      norm_num [F64.roundEven, abs_of_pos]
    rw [this]
    rfl
  have hf : fmtFixed1 (F64.fin (1048575 / 1024)) = "1024.0" := by
    have hneg : ¬ ((1048575 / 1024 : ℚ) < 0) := by norm_num
    simp only [fmtFixed1, ht, if_neg hneg]
    rfl
  unfold formatBytes
  rw [if_neg (by norm_num)]
  simp only
  rw [hloop]
  simp only
  rw [show "KMGTPE".toList.get? 0 = some 'K' from rfl]
  simp only
  rw [hb, hd, hq, hf]
  rfl

theorem float_mantissa_top :
    F64.div (F64.ofInt ((1152921504606846975 : ℕ) : ℤ)) (F64.ofInt 1125899906842624) =
      F64.fin 1024 := by
  have hb : F64.ofInt ((1152921504606846975 : ℕ) : ℤ) = F64.fin 1152921504606846976 := by
    have h := F64.round_eval (q := 1152921504606846975) 59 9007199254740992
      (by norm_num [abs_of_pos]) (by norm_num [abs_of_pos]) (by norm_num)
      (by norm_num [F64.roundEven]) (by norm_num [F64.huge, abs_of_pos])
    have hc : (((1152921504606846975 : ℕ) : ℤ) : ℚ) = 1152921504606846975 := by norm_num
    rw [F64.ofInt, hc, h]
    norm_num
  have hd : F64.ofInt 1125899906842624 = F64.fin 1125899906842624 := by
    have h := F64.round_fix (q := 1125899906842624) 1 50 (by norm_num) (by norm_num)
      (by norm_num) (by norm_num)
    have hc : ((1125899906842624 : ℤ) : ℚ) = 1125899906842624 := by norm_num
    rw [F64.ofInt, hc, h]
  have hne : (1125899906842624 : ℚ) ≠ 0 := by norm_num
  have hq := F64.round_fix (q := 1152921504606846976 / 1125899906842624) 1024 0
    (by norm_num) (by norm_num) (by norm_num) (by norm_num)
  rw [hb, hd]
  simp only [F64.div, if_neg hne, hq]
  norm_num

/-- C10, counterexample: `formatBytes 1048575` is "1024.0 K", although
`1024 <= 1048575 < 1024 * 1024`: the exact quotient 1023.999 is printed with
one decimal as 1024.0.  And for `b = 2 ^ 60 - 1`, where the loop ends with
`div = 2 ^ 50`, already the `float64` mantissa `float64(b) / float64(div)` is
exactly 1024, since `float64(b)` rounds to `2 ^ 60`. -/
theorem C10_printed_mantissa_counterexample :
    formatBytes 1048575 = some "1024.0 K" ∧
    formatBytesLoop (1152921504606846975 / 1024) 1024 0 = (1125899906842624, 4) ∧
    F64.div (F64.ofInt ((1152921504606846975 : ℕ) : ℤ)) (F64.ofInt 1125899906842624) =
      F64.fin 1024 := by
  refine ⟨formatBytes_1048575, ?_, float_mantissa_top⟩
  rw [formatBytesLoop_step _ _ _ (by norm_num), formatBytesLoop_step _ _ _ (by norm_num),
    formatBytesLoop_step _ _ _ (by norm_num), formatBytesLoop_step _ _ _ (by norm_num),
    formatBytesLoop_small _ _ _ (by norm_num)]
  norm_num [wrapInt64]

/-- C10, as the code has it: for every `uint64` value `b`, the loop of
`formatBytes` terminates (its embedding is a total function); if `b < 1024`
the result is the decimal of `b` followed by " B"; if `b >= 1024` the final
`exp` is at most 5, so the index into "KMGTPE" is in range and a string is
returned, `div = 1024 ^ (exp + 1)` was reached without `int64` overflow and is
below `2 ^ 63`, and `div <= b < 1024 * div`, so the exact quotient `b / div`
lies in `[1, 1024)`; the `float64` mantissa `float64(b) / float64(div)` is a
finite value `m` with `1 <= m <= 1024`, and the result is the tenths
`t = roundEven (10 * m)`, `10 <= t <= 10240`, printed as `t / 10`, a point and
`t % 10`, then a blank and the unit: a mantissa from 1.0 to 1024.0, both ends
included. -/
theorem C10_formatBytes_unit (b : ℕ) (hb : b < 2 ^ 64) :
    (b < 1024 → formatBytes b = some (toString b ++ " B")) ∧
    (1024 ≤ b → ∃ (div : ℤ) (exp : ℕ) (c : Char) (m : ℚ) (t : ℕ),
      formatBytesLoop (b / 1024) 1024 0 = (div, exp) ∧
      exp ≤ 5 ∧ "KMGTPE".toList.get? exp = some c ∧
      div = 1024 ^ (exp + 1) ∧ div < 2 ^ 63 ∧
      div ≤ (b : ℤ) ∧ (b : ℤ) < 1024 * div ∧
      1 ≤ (b : ℚ) / (div : ℚ) ∧ (b : ℚ) / (div : ℚ) < 1024 ∧
      F64.div (F64.ofInt b) (F64.ofInt div) = F64.fin m ∧ 1 ≤ m ∧ m ≤ 1024 ∧
      (t : ℤ) = F64.roundEven (m * 10) ∧ 10 ≤ t ∧ t ≤ 10240 ∧
      formatBytes b =
        some (toString (t / 10) ++ "." ++ toString (t % 10) ++ " " ++ String.singleton c)) := by
  constructor
  · intro h
    unfold formatBytes
    rw [if_pos h]
  · intro h
    have h1 : 1 ≤ b / 1024 := (Nat.le_div_iff_mul_le (by norm_num)).mpr (by omega)
    have hs := formatBytesLoop_spec b hb (b / 1024) 0 (by norm_num) h1
    simp only [zero_add, pow_one] at hs
    obtain ⟨hdiv, hexp, hle, hlt⟩ := hs
    set r := formatBytesLoop (b / 1024) 1024 0 with hr
    have hget : ∃ c, "KMGTPE".toList.get? r.2 = some c := by
      have : r.2 = 0 ∨ r.2 = 1 ∨ r.2 = 2 ∨ r.2 = 3 ∨ r.2 = 4 ∨ r.2 = 5 := by omega
      rcases this with h | h | h | h | h | h <;> rw [h] <;> exact ⟨_, rfl⟩
    obtain ⟨c, hc⟩ := hget
    have hdivle : r.1 ≤ (b : ℤ) := by
      rw [hdiv]
      exact_mod_cast hle
    have hdivlt : (b : ℤ) < 1024 * r.1 := by
      rw [hdiv]
      exact_mod_cast hlt
    have hdpos : (0 : ℤ) < r.1 := by
      rw [hdiv]
      positivity
    have hdq : (0 : ℚ) < (r.1 : ℚ) := by exact_mod_cast hdpos
    obtain ⟨m, hm, hm1, hm2⟩ := mantissa_between b r.2 hexp hle hlt
    rw [← hdiv] at hm
    obtain ⟨t, ht, ht1, ht2, hfmt⟩ := fmtFixed1_between hm1 hm2
    refine ⟨r.1, r.2, c, m, t, rfl, hexp, hc, hdiv, ?_, hdivle, hdivlt, ?_, ?_, hm, hm1, hm2,
      ht, ht1, ht2, ?_⟩
    · have : r.1 ≤ 2 ^ 60 := by
        rw [hdiv]
        exact pow1024_le (by omega)
      omega
    · rw [le_div_iff₀ hdq, one_mul]
      exact_mod_cast hdivle
    · rw [div_lt_iff₀ hdq]
      exact_mod_cast hdivlt
    · unfold formatBytes
      rw [if_neg (by omega)]
      simp only
      rw [← hr, hc]
      simp only
      rw [hm, hfmt]

/-- Witness of C10: `b = 1536`, printed as "1.5 K". -/
theorem C10_formatBytes_unit_witness :
    (1536 < 1024 → formatBytes 1536 = some (toString 1536 ++ " B")) ∧
    (1024 ≤ 1536 → ∃ (div : ℤ) (exp : ℕ) (c : Char) (m : ℚ) (t : ℕ),
      formatBytesLoop (1536 / 1024) 1024 0 = (div, exp) ∧
      exp ≤ 5 ∧ "KMGTPE".toList.get? exp = some c ∧
      div = 1024 ^ (exp + 1) ∧ div < 2 ^ 63 ∧
      div ≤ ((1536 : ℕ) : ℤ) ∧ ((1536 : ℕ) : ℤ) < 1024 * div ∧
      1 ≤ ((1536 : ℕ) : ℚ) / (div : ℚ) ∧ ((1536 : ℕ) : ℚ) / (div : ℚ) < 1024 ∧
      F64.div (F64.ofInt ((1536 : ℕ) : ℤ)) (F64.ofInt div) = F64.fin m ∧ 1 ≤ m ∧ m ≤ 1024 ∧
      (t : ℤ) = F64.roundEven (m * 10) ∧ 10 ≤ t ∧ t ≤ 10240 ∧
      formatBytes 1536 =
        some (toString (t / 10) ++ "." ++ toString (t % 10) ++ " " ++ String.singleton c)) :=
  C10_formatBytes_unit 1536 (by norm_num)

end Kiloa
